import Mathlib

/-!
Verification of the MusMark watermarking engine (TypeScript/C++ sources)
against its natural-language specification.

Shallow embedding conventions:
* JS `Uint8Array` / `number[]` values become `List Nat`; reads through
  possibly-out-of-range indices that JS resolves to `undefined`-coalesced
  zero are modelled with `List.getD _ _ 0`.
* JS exceptions (`throw new Error`) become `Except String`.
* `Float32Array` correlation values are modelled over `ℚ` (the claims under
  study concern control flow, signs and index arithmetic, not rounding).
* 64-bit machine integers of the C++ embedder are `Nat` reduced `% 2^64`.
-/

namespace MusMark

set_option maxRecDepth 100000

/-! ## Bit plumbing (src/bitUtils: bytesToBits, bitsToBytes, interleaveBits,
deinterleaveBits) -/

/-- `bytesToBits` from the source: MSB-first expansion of each byte. -/
def bytesToBits (bytes : List Nat) : List Nat :=
  bytes.flatMap (fun x => (List.range 8).map (fun b => (x >>> (7 - b)) &&& 1))

/-- `bitsToBytes` from the source: MSB-first packing, zero-padding the final
byte (`idx < bits.length` guard). -/
def bitsToBytes (bits : List Nat) : List Nat :=
  (List.range ((bits.length + 7) / 8)).map (fun i =>
    (List.range 8).foldl (fun value b =>
      let idx := i * 8 + b
      (value <<< 1) ||| (if idx < bits.length then bits.getD idx 0 &&& 1 else 0)) 0)

/-- `interleaveBits` from the source.  The JS code zero-pads `bits` to a
`rows × cols` row-major matrix (`padded.set(bits, 0)` on a zeroed
`Uint8Array`), emits it column-major (`interleaved[idx++] = padded[r*cols+c]`
with `c` outer, `r` inner, so the write index is `c*rows + r`), and truncates
to the input length.  `bits.getD _ 0` is exactly the zero-padded read. -/
def interleaveBits (bits : List Nat) (depth : Nat) : List Nat :=
  if depth ≤ 1 then bits
  else
    let rows := depth
    let cols := (bits.length + rows - 1) / rows
    ((List.range (rows * cols)).map (fun idx =>
      bits.getD ((idx % rows) * cols + idx / rows) 0)).take bits.length

/-- `deinterleaveBits` from the source.  The JS loop writes
`deinterleaved[r*cols+c] = padded[idx++]` with `c` outer and `r` inner, so the
cell at row-major position `k = r*cols + c` (uniquely `r = k / cols`,
`c = k % cols`) receives `padded[c*rows + r]`; every cell is written exactly
once, then the result is truncated to the input length. -/
def deinterleaveBits (bits : List Nat) (depth : Nat) : List Nat :=
  if depth ≤ 1 then bits
  else
    let rows := depth
    let cols := (bits.length + rows - 1) / rows
    ((List.range (rows * cols)).map (fun k =>
      bits.getD ((k % cols) * rows + k / cols) 0)).take bits.length

/-! ## GF(2^8) arithmetic and Reed–Solomon codec (src/reedSolomon.ts) -/

/-- One step of the exp-table generator in `initTables`: `x <<= 1;
if (x & 0x100) x ^= PRIMITIVE_POLY` with `PRIMITIVE_POLY = 0x11d`. -/
def gfStep (x : Nat) : Nat :=
  let x2 := x <<< 1
  if x2 &&& 0x100 ≠ 0 then x2 ^^^ 0x11d else x2

/-- The `initTables` IIFE: builds `gfExp : Uint8Array(512)` and
`gfLog : Uint8Array(256)` (both zero-initialised).  First loop: for
`i ∈ [0,255)` set `gfExp[i] = x`, `gfLog[x] = i`, advance `x`.  Second loop:
for `i ∈ [255,512)` set `gfExp[i] = gfExp[i-255]` (sequential, so the last
two slots read already-updated entries). -/
def gfInit : List Nat × List Nat :=
  let s := (List.range 255).foldl
    (fun (s : (List Nat × List Nat) × Nat) i =>
      ((s.1.1.set i s.2, s.1.2.set s.2 i), gfStep s.2))
    ((List.replicate 512 0, List.replicate 256 0), 1)
  let e := (List.range 257).foldl (fun e k => e.set (255 + k) (e.getD k 0)) s.1.1
  (e, s.1.2)

/-- The `gfExp` table of the source (length 512), given as the explicit list
of values; `gfTables_certified` proves it equal to the table the `initTables`
loop (`gfInit`) builds. -/
def gfExp : List Nat := [
  1, 2, 4, 8, 16, 32, 64, 128, 29, 58, 116, 232, 205, 135, 19, 38,
  76, 152, 45, 90, 180, 117, 234, 201, 143, 3, 6, 12, 24, 48, 96, 192,
  157, 39, 78, 156, 37, 74, 148, 53, 106, 212, 181, 119, 238, 193, 159, 35,
  70, 140, 5, 10, 20, 40, 80, 160, 93, 186, 105, 210, 185, 111, 222, 161,
  95, 190, 97, 194, 153, 47, 94, 188, 101, 202, 137, 15, 30, 60, 120, 240,
  253, 231, 211, 187, 107, 214, 177, 127, 254, 225, 223, 163, 91, 182, 113, 226,
  217, 175, 67, 134, 17, 34, 68, 136, 13, 26, 52, 104, 208, 189, 103, 206,
  129, 31, 62, 124, 248, 237, 199, 147, 59, 118, 236, 197, 151, 51, 102, 204,
  133, 23, 46, 92, 184, 109, 218, 169, 79, 158, 33, 66, 132, 21, 42, 84,
  168, 77, 154, 41, 82, 164, 85, 170, 73, 146, 57, 114, 228, 213, 183, 115,
  230, 209, 191, 99, 198, 145, 63, 126, 252, 229, 215, 179, 123, 246, 241, 255,
  227, 219, 171, 75, 150, 49, 98, 196, 149, 55, 110, 220, 165, 87, 174, 65,
  130, 25, 50, 100, 200, 141, 7, 14, 28, 56, 112, 224, 221, 167, 83, 166,
  81, 162, 89, 178, 121, 242, 249, 239, 195, 155, 43, 86, 172, 69, 138, 9,
  18, 36, 72, 144, 61, 122, 244, 245, 247, 243, 251, 235, 203, 139, 11, 22,
  44, 88, 176, 125, 250, 233, 207, 131, 27, 54, 108, 216, 173, 71, 142, 1,
  2, 4, 8, 16, 32, 64, 128, 29, 58, 116, 232, 205, 135, 19, 38, 76,
  152, 45, 90, 180, 117, 234, 201, 143, 3, 6, 12, 24, 48, 96, 192, 157,
  39, 78, 156, 37, 74, 148, 53, 106, 212, 181, 119, 238, 193, 159, 35, 70,
  140, 5, 10, 20, 40, 80, 160, 93, 186, 105, 210, 185, 111, 222, 161, 95,
  190, 97, 194, 153, 47, 94, 188, 101, 202, 137, 15, 30, 60, 120, 240, 253,
  231, 211, 187, 107, 214, 177, 127, 254, 225, 223, 163, 91, 182, 113, 226, 217,
  175, 67, 134, 17, 34, 68, 136, 13, 26, 52, 104, 208, 189, 103, 206, 129,
  31, 62, 124, 248, 237, 199, 147, 59, 118, 236, 197, 151, 51, 102, 204, 133,
  23, 46, 92, 184, 109, 218, 169, 79, 158, 33, 66, 132, 21, 42, 84, 168,
  77, 154, 41, 82, 164, 85, 170, 73, 146, 57, 114, 228, 213, 183, 115, 230,
  209, 191, 99, 198, 145, 63, 126, 252, 229, 215, 179, 123, 246, 241, 255, 227,
  219, 171, 75, 150, 49, 98, 196, 149, 55, 110, 220, 165, 87, 174, 65, 130,
  25, 50, 100, 200, 141, 7, 14, 28, 56, 112, 224, 221, 167, 83, 166, 81,
  162, 89, 178, 121, 242, 249, 239, 195, 155, 43, 86, 172, 69, 138, 9, 18,
  36, 72, 144, 61, 122, 244, 245, 247, 243, 251, 235, 203, 139, 11, 22, 44,
  88, 176, 125, 250, 233, 207, 131, 27, 54, 108, 216, 173, 71, 142, 1, 2]

/-- The `gfLog` table of the source (length 256; `gfLog[0]` stays at its zero
initialisation, exactly as in the JS `Uint8Array`), given as the explicit
list of values certified by `gfTables_certified`. -/
def gfLog : List Nat := [
  0, 0, 1, 25, 2, 50, 26, 198, 3, 223, 51, 238, 27, 104, 199, 75,
  4, 100, 224, 14, 52, 141, 239, 129, 28, 193, 105, 248, 200, 8, 76, 113,
  5, 138, 101, 47, 225, 36, 15, 33, 53, 147, 142, 218, 240, 18, 130, 69,
  29, 181, 194, 125, 106, 39, 249, 185, 201, 154, 9, 120, 77, 228, 114, 166,
  6, 191, 139, 98, 102, 221, 48, 253, 226, 152, 37, 179, 16, 145, 34, 136,
  54, 208, 148, 206, 143, 150, 219, 189, 241, 210, 19, 92, 131, 56, 70, 64,
  30, 66, 182, 163, 195, 72, 126, 110, 107, 58, 40, 84, 250, 133, 186, 61,
  202, 94, 155, 159, 10, 21, 121, 43, 78, 212, 229, 172, 115, 243, 167, 87,
  7, 112, 192, 247, 140, 128, 99, 13, 103, 74, 222, 237, 49, 197, 254, 24,
  227, 165, 153, 119, 38, 184, 180, 124, 17, 68, 146, 217, 35, 32, 137, 46,
  55, 63, 209, 91, 149, 188, 207, 205, 144, 135, 151, 178, 220, 252, 190, 97,
  242, 86, 211, 171, 20, 42, 93, 158, 132, 60, 57, 83, 71, 109, 65, 162,
  31, 45, 67, 216, 183, 123, 164, 118, 196, 23, 73, 236, 127, 12, 111, 246,
  108, 161, 59, 82, 41, 157, 85, 170, 251, 96, 134, 177, 187, 204, 62, 90,
  203, 89, 95, 176, 156, 169, 160, 81, 11, 245, 22, 235, 122, 117, 44, 215,
  79, 174, 213, 233, 230, 231, 173, 232, 116, 214, 244, 234, 168, 80, 88, 175]

/-- `gfMul` from the source. -/
def gfMul (a b : Nat) : Nat :=
  if a = 0 ∨ b = 0 then 0
  else gfExp.getD (gfLog.getD a 0 + gfLog.getD b 0) 0

/-- `gfDiv` from the source; `throw new Error("Division by zero")` becomes
`Except.error`.  The zero-dividend test comes first, exactly as in the code. -/
def gfDiv (a b : Nat) : Except String Nat :=
  if a = 0 then Except.ok 0
  else if b = 0 then Except.error "Division by zero"
  else Except.ok (gfExp.getD ((gfLog.getD a 0 + 255 - gfLog.getD b 0) % 255) 0)

/-- `gfPow` from the source. -/
def gfPow (a power : Nat) : Nat :=
  gfExp.getD ((gfLog.getD a 0 * power) % 255) 0

/-- `polyScale` from the source. -/
def polyScale (p : List Nat) (x : Nat) : List Nat := p.map (fun c => gfMul c x)

/-- `polyAdd` from the source: right-aligned XOR; the JS
`p[p.length - length + i] ?? 0` read of a negative index is the `else 0`
branch. -/
def polyAdd (p q : List Nat) : List Nat :=
  let length := max p.length q.length
  (List.range length).map (fun i =>
    (if length ≤ p.length + i then p.getD (p.length + i - length) 0 else 0) ^^^
    (if length ≤ q.length + i then q.getD (q.length + i - length) 0 else 0))

/-- `polyMul` from the source: nested accumulation into a zeroed result of
length `p.length + q.length − 1`. -/
def polyMul (p q : List Nat) : List Nat :=
  (List.range p.length).foldl (fun res i =>
      (List.range q.length).foldl (fun res j =>
        res.set (i + j) (res.getD (i + j) 0 ^^^ gfMul (p.getD i 0) (q.getD j 0))) res)
    (List.replicate (p.length + q.length - 1) 0)

/-! ### JS number-or-undefined values inside `rsDecode`

`rsDecode` can run its helpers on `undefined`: `polyEval` of an empty
array returns `undefined` (`let y = p[0]`), that value is stored into
`synd` and flows through the Berlekamp–Massey loop.  The embedding makes
this explicit: a JS value that is a number **or** `undefined`/`NaN` is an
`Option Nat` with `none` for `undefined`/`NaN`, and the JS coercions are
modelled exactly:
* an array read out of range gives `undefined` (`getD _ none`);
* a `Uint8Array` table lookup at an `undefined`/`NaN` index gives
  `undefined` (the `| _, _ => none` branches);
* a bitwise `^` coerces `undefined`/`NaN` to `0` (`.getD 0`) and always
  yields a number (`some _`);
* a strict comparison `x !== 0` is `x ≠ some 0` (`undefined !== 0` is
  true).
On defined operands the `…O` helpers coincide with the plain helpers
above (`gfMulO (some a) (some b) = some (gfMul a b)`, and so on), so the
encode-side functions keep their plain form. -/

/-- `gfMul` on number-or-undefined operands: the `a === 0 || b === 0`
shortcut fires only on a literal `0`; otherwise an `undefined` operand
makes `gfLog[a] + gfLog[b]` NaN and the `gfExp` lookup `undefined`. -/
def gfMulO (a b : Option Nat) : Option Nat :=
  if a = some 0 ∨ b = some 0 then some 0
  else match a, b with
    | some x, some y => some (gfExp.getD (gfLog.getD x 0 + gfLog.getD y 0) 0)
    | _, _ => none

/-- `gfDiv` on number-or-undefined operands; only a literal `0` divisor
throws (`undefined === 0` is false), and an `undefined` operand otherwise
propagates through the table lookups. -/
def gfDivO (a b : Option Nat) : Except String (Option Nat) :=
  if a = some 0 then Except.ok (some 0)
  else if b = some 0 then Except.error "Division by zero"
  else match a, b with
    | some x, some y =>
        Except.ok (some (gfExp.getD ((gfLog.getD x 0 + 255 - gfLog.getD y 0) % 255) 0))
    | _, _ => Except.ok none

/-- `polyScale` on number-or-undefined coefficients. -/
def polyScaleO (p : List (Option Nat)) (x : Option Nat) : List (Option Nat) :=
  p.map (fun c => gfMulO c x)

/-- `polyAdd` on number-or-undefined coefficients: `p[…] ?? 0` coalesces
both a negative-index read and a stored `undefined` to `0`, and `a ^ b`
then always produces a number. -/
def polyAddO (p q : List (Option Nat)) : List (Option Nat) :=
  let length := max p.length q.length
  (List.range length).map (fun i => some (
    (if length ≤ p.length + i then (p.getD (p.length + i - length) none).getD 0 else 0) ^^^
    (if length ≤ q.length + i then (q.getD (q.length + i - length) none).getD 0 else 0)))

/-- `polyMul` on number-or-undefined coefficients: the result array starts
zero-filled and `^=` coerces every accumulated term, so its entries are
always numbers. -/
def polyMulO (p q : List (Option Nat)) : List (Option Nat) :=
  ((List.range p.length).foldl (fun res i =>
      (List.range q.length).foldl (fun res j =>
        res.set (i + j)
          (res.getD (i + j) 0 ^^^ (gfMulO (p.getD i none) (q.getD j none)).getD 0)) res)
    (List.replicate (p.length + q.length - 1) 0)).map some

/-- `polyEval` from the source (Horner, big-endian coefficients).  JS
`let y = p[0]` of an empty array is `undefined`, hence `none`; each loop
step `y = gfMul(y, x) ^ p[i]` coerces through `^` and yields a number. -/
def polyEval (p : List (Option Nat)) (x : Nat) : Option Nat :=
  match p with
  | [] => none
  | y0 :: rest => rest.foldl (fun y c => some ((gfMulO y (some x)).getD 0 ^^^ c.getD 0)) y0

/-- `rsGeneratorPoly` from the source. -/
def rsGeneratorPoly (nsym : Nat) : List Nat :=
  (List.range nsym).foldl (fun g i => polyMul g [1, gfPow 2 i]) [1]

/-- `rsEncode` from the source (systematic: output is `data ++ parity`). -/
def rsEncode (data : List Nat) (nsym : Nat) : List Nat :=
  let gen := rsGeneratorPoly nsym
  let msg0 := data ++ List.replicate nsym 0
  let msg := (List.range data.length).foldl (fun msg i =>
      let coef := msg.getD i 0
      if coef ≠ 0 then
        (List.range gen.length).foldl (fun msg j =>
          msg.set (i + j) (msg.getD (i + j) 0 ^^^ gfMul (gen.getD j 0) coef)) msg
      else msg) msg0
  data ++ msg.drop data.length

/-- Result record of `rsDecode`. -/
structure RSDecodeResult where
  data : List Nat
  corrected : Bool
  errorCount : Nat
deriving Repr, DecidableEq

/-- `rsDecode` from the source, over the explicit number-or-undefined
values.  Notes tying the embedding to the JS text:
* syndromes `synd[i] = polyEval(msg, gfPow(2,i))` on the plain codeword
  bytes (`msg.map some`); for an **empty** codeword every syndrome is
  `undefined` (`none`), so `s !== 0` fires and `hasError` is true;
* Berlekamp–Massey: the inner discrepancy loop runs `j ∈ [1, errLoc.length)`;
  `delta ^= gfMul(errLoc[len-1-j], synd[i-j])` coerces both sides of `^`
  to numbers (`.getD 0`), and `synd[i-j]` for `i < j` is the JS
  negative-index read `undefined` (the `else none`); `delta !== 0` is
  `delta ≠ some 0`; `gfDivO (some 1) delta` never throws under that guard
  (only a literal `0` divisor throws);
* Chien: positions `msg.length - 1 - i` for each index with
  `polyEval(errLoc, gfPow(2,i)) === 0` — a strict equality, so `= some 0`
  — with `errLoc` evaluated as written (no reversal), `i < msg.length`;
* the `0 or > nsym` guard returns the raw prefix with `corrected = false`
  (for an empty codeword the Chien loop is empty, so this is the branch
  taken: `corrected = false`, `errorCount = 0`);
* Forney: `errEval = trim(polyMul([0]++synd, reverse errLoc))`, odd-index
  derivative loop `j = 1, 3, …`, magnitudes coerced by `^=` into the
  message bytes. -/
def rsDecode (codeword : List Nat) (nsym : Nat) :
    Except String RSDecodeResult := do
  let msg := codeword
  let synd := (List.range nsym).map (fun i => polyEval (msg.map some) (gfPow 2 i))
  let hasError := synd.any (fun s => s ≠ some 0)
  if ¬hasError then
    return ⟨codeword.take (codeword.length - nsym), true, 0⟩
  let bm ← (List.range nsym).foldlM
    (fun (st : List (Option Nat) × List (Option Nat)) i => do
      let errLoc := st.1
      let oldLoc := st.2
      let delta := (List.range errLoc.length).foldl (fun d j =>
        if j = 0 then d
        else some (d.getD 0 ^^^
          (gfMulO (errLoc.getD (errLoc.length - 1 - j) none)
            (if j ≤ i then synd.getD (i - j) none else none)).getD 0))
        (synd.getD i none)
      let oldLoc := oldLoc ++ [some 0]
      if delta ≠ some 0 then
        if oldLoc.length > errLoc.length then
          let newLoc := polyScaleO oldLoc delta
          let inv ← gfDivO (some 1) delta
          let oldLoc2 := polyScaleO errLoc inv
          pure (polyAddO newLoc (polyScaleO oldLoc2 delta), oldLoc2)
        else
          pure (polyAddO errLoc (polyScaleO oldLoc delta), oldLoc)
      else pure (errLoc, oldLoc))
    ([some 1], [some 1])
  let errLoc := bm.1
  let errPositions := (List.range msg.length).filterMap (fun i =>
    if polyEval errLoc (gfPow 2 i) = some 0 then some (msg.length - 1 - i) else none)
  if errPositions.length = 0 ∨ errPositions.length > nsym then
    return ⟨codeword.take (codeword.length - nsym), false, errPositions.length⟩
  let syndPoly := some 0 :: synd
  let errLocRev := errLoc.reverse
  let errEval0 := polyMulO syndPoly errLocRev
  let errEval := errEval0.drop (errEval0.length - nsym)
  let msg2 ← errPositions.foldlM (fun (msg : List Nat) pos => do
      let xi := gfPow 2 (msg.length - 1 - pos)
      let errLocPrime := (List.range errLoc.length).foldl (fun acc j =>
        if j % 2 = 1 then
          acc ^^^ (gfMulO (errLoc.getD (errLoc.length - 1 - j) none) (some (gfPow xi j))).getD 0
        else acc) 1
      let y := polyEval errEval xi
      let magnitude ← gfDivO (gfMulO y (some xi)) (some errLocPrime)
      pure (msg.set pos (msg.getD pos 0 ^^^ magnitude.getD 0))) msg
  return ⟨msg2.take (msg2.length - nsym), true, errPositions.length⟩

/-! ## Framing codec (src/payload.ts, provided as src/unnamed/part_004) -/

/-- `SYNC_PATTERN` from the source: the 64 literal bits. -/
def SYNC_PATTERN : List Nat := [
  1,0,1,0,1,1,0,1,  0,1,0,1,0,0,1,0,
  1,1,1,0,0,1,1,0,  0,1,1,0,0,0,1,1,
  1,0,0,1,1,0,1,0,  0,1,1,1,0,0,1,0,
  1,0,1,1,0,1,0,0,  1,1,0,0,1,0,1,1]

/-- `PARITY_BYTES` from the source. -/
def PARITY_BYTES : Nat := 32

/-- `INTERLEAVE_DEPTH` from the source. -/
def INTERLEAVE_DEPTH : Nat := 8

/-- `numberToBits` from the source: `bits[bitCount-1-i] = (value >> i) & 1`
writes each position exactly once, so position `k` holds bit
`bitCount-1-k`. -/
def numberToBits (value bitCount : Nat) : List Nat :=
  (List.range bitCount).map (fun k => (value >>> (bitCount - 1 - k)) &&& 1)

/-- `bitsToNumber` from the source. -/
def bitsToNumber (bits : List Nat) : Nat :=
  bits.foldl (fun value b => (value <<< 1) ||| (b &&& 1)) 0

/-- The inner match loop of `findSync`: how many of the `pattern.length`
positions agree (`data[i+j] === pattern[j]`). -/
def matchCount (data pattern : List Nat) (i : Nat) : Nat :=
  (List.range pattern.length).countP (fun j => data.getD (i + j) 0 == pattern.getD j 0)

/-- The scan loop of `findSync`, state = (current index, best match count,
best index).  The JS float comparisons `matches/len >= 0.85` and
`bestMatch/len >= 0.6` are modelled by the exact rational tests
`m*20 ≥ len*17` and `m*5 ≥ len*3`; for the 64-bit `SYNC_PATTERN` every
reachable comparison agrees bit-for-bit with the binary64 originals (both
say `m ≥ 55` resp. `m ≥ 39`), and `NaN >= c` being false for an empty
pattern is the `0 < pattern.length` conjunct. -/
def findSyncAux (data pattern : List Nat) : Nat → Nat → Nat → Int → Int
  | 0, _, bestMatch, bestIndex =>
    if 0 < pattern.length ∧ pattern.length * 3 ≤ bestMatch * 5 then bestIndex else -1
  | fuel + 1, i, bestMatch, bestIndex =>
    if data.length < i + pattern.length then
      if 0 < pattern.length ∧ pattern.length * 3 ≤ bestMatch * 5 then bestIndex else -1
    else
      let m := matchCount data pattern i
      let bestMatch2 := if bestMatch < m then m else bestMatch
      let bestIndex2 := if bestMatch < m then (i : Int) else bestIndex
      if 0 < pattern.length ∧ pattern.length * 17 ≤ m * 20 then (i : Int)
      else findSyncAux data pattern fuel (i + 1) bestMatch2 bestIndex2

/-- `findSync` from the source.  The scan loop runs at most
`data.length + 1` iterations (it stops once `i + pattern.length`
exceeds `data.length`), so that fuel bound makes `findSyncAux` structurally
recursive without ever reaching its (identical) out-of-fuel base case. -/
def findSync (data pattern : List Nat) : Int :=
  findSyncAux data pattern (data.length + 1) 0 0 (-1)

/-- JS `b.toString(16)` digit for a nibble (lowercase hex). -/
def hexDigit (n : Nat) : Char :=
  if n < 10 then Char.ofNat (48 + n) else Char.ofNat (87 + n)

/-- The two lowercase hex characters of one byte, as produced by
`b.toString(16).padStart(2, "0")` for `b < 256`. -/
def byteHexChars (b : Nat) : List Char :=
  [hexDigit (b / 16), hexDigit (b % 16)]

/-- `bytesToUuid` from the source: hex-encode, then slice into the
8-4-4-4-12 groups. -/
def bytesToUuid (bytes : List Nat) : String :=
  let cs := bytes.flatMap byteHexChars
  String.mk (cs.take 8 ++ ['-'] ++ ((cs.drop 8).take 4) ++ ['-'] ++
    ((cs.drop 12).take 4) ++ ['-'] ++ ((cs.drop 16).take 4) ++ ['-'] ++
    ((cs.drop 20).take 12))

/-- Value of one hex character as `parseInt(..., 16)` sees it.  The claims
only evaluate this on canonical hex output of `hexDigit` (JS would produce
`NaN`, coerced to `0` by the `Uint8Array` store, elsewhere — the `else 0`). -/
def hexCharVal (c : Char) : Nat :=
  if 48 ≤ c.toNat ∧ c.toNat ≤ 57 then c.toNat - 48
  else if 97 ≤ c.toNat ∧ c.toNat ≤ 102 then c.toNat - 87
  else if 65 ≤ c.toNat ∧ c.toNat ≤ 70 then c.toNat - 55
  else 0

/-- `uuidToBytes` from the source: strip dashes, parse 16 two-character hex
pairs. -/
def uuidToBytes (uuid : String) : List Nat :=
  let hex := uuid.toList.filter (fun c => c ≠ '-')
  (List.range 16).map (fun i =>
    16 * hexCharVal (hex.getD (2 * i) 'x') + hexCharVal (hex.getD (2 * i + 1) 'x'))

/-- `buildBitstream` from the source: the frame is assembled by three
consecutive `set` calls into a fresh buffer, i.e. concatenation. -/
def buildBitstream (signatureId : String) : List Nat :=
  let payloadBuffer := uuidToBytes signatureId
  let encoded := rsEncode payloadBuffer PARITY_BYTES
  let bits := bytesToBits encoded
  let interleaved := interleaveBits bits INTERLEAVE_DEPTH
  let lengthBits := numberToBits payloadBuffer.length 16
  SYNC_PATTERN ++ lengthBits ++ interleaved

/-- Result record of `decodeBitstream`. -/
structure DecodedPayload where
  signatureId : Option String
  payloadHash : Option String
  success : Bool
  errorCount : Nat
deriving Repr, DecidableEq

/-- `decodeBitstream` from the source.  SHA-256 is an external collaborator
(hashing is out of scope per the spec), passed in as `sha256`.  JS `slice`
becomes `drop`/`take`; the propagated `rsDecode` exception is the `Except`
bind. -/
def decodeBitstream (sha256 : List Nat → String) (bitstream : List Nat) :
    Except String DecodedPayload := do
  let syncIndex := findSync bitstream SYNC_PATTERN
  if syncIndex < 0 then
    return ⟨none, none, false, 0⟩
  let start := syncIndex.toNat + SYNC_PATTERN.length
  let lengthBits := (bitstream.drop start).take 16
  let payloadLength := bitsToNumber lengthBits
  let expectedCodewordBits := (payloadLength + PARITY_BYTES) * 8
  let payloadBits := (bitstream.drop (start + 16)).take expectedCodewordBits
  let deinterleaved := deinterleaveBits payloadBits INTERLEAVE_DEPTH
  let codeword := bitsToBytes deinterleaved
  let r ← rsDecode codeword PARITY_BYTES
  if ¬r.corrected then
    return ⟨none, none, false, r.errorCount⟩
  let payloadBytes := r.data.take payloadLength
  if payloadLength = 16 then
    return ⟨some (bytesToUuid payloadBytes), some (sha256 payloadBytes), true, r.errorCount⟩
  return ⟨none, none, false, r.errorCount⟩

/-- The frame period constant appearing in `applySoftMajorityVoting`
(`64 + 16 + (16 + 32) * 8 = 464`). -/
def votePeriod : Nat := 64 + 16 + (16 + 32) * 8

/-- `applySoftMajorityVoting` from the source, with `Float32Array`
correlations modelled over `ℚ`.  In the folded branch the imperative code
accumulates `positionSums[i] += correlations[r*period+i]` (guarded by
`idx < correlations.length`) with `r` ascending, i.e. position `i` ends up
holding the sum below; positions are then hard-decided by `> 0`. -/
def applySoftMajorityVoting (correlations : List ℚ) : List Nat :=
  let period := votePeriod
  let repetitions := correlations.length / period
  if repetitions < 2 then
    correlations.map (fun c => if 0 < c then 1 else 0)
  else
    (List.range period).map (fun i =>
      let s := ((List.range repetitions).map (fun r =>
        if r * period + i < correlations.length
        then correlations.getD (r * period + i) 0 else 0)).sum
      if 0 < s then 1 else 0)

/-! ## Public facade (src/engine.ts `detect`) -/

/-- The fields of the native extraction result that `detect` consumes
(`extractWatermark` itself is WAV/FFT-free time-domain code behind the
addon boundary; `detect` only reads these four fields). -/
structure ExtractedModel where
  correlations : List ℚ
  bitConfidence : ℚ
  bandAgreement : ℚ
  blocksAnalyzed : ℚ
deriving DecidableEq

/-- The `stats` record assembled by `detect`. -/
structure DetectStats where
  bitConfidence : ℚ
  bandAgreement : ℚ
  blocksAnalyzed : ℚ
  errorCount : Nat
deriving Repr, DecidableEq

/-- `DetectResult` of the source over an abstract payload type `P`. -/
structure DetectResult (P : Type) where
  detected : Bool
  confidence : ℤ
  payload : Option P
  payloadHash : Option String
  stats : DetectStats
deriving DecidableEq

/-- JS `Math.round` (half away from zero toward +∞, i.e. `⌊x + 1/2⌋`). -/
def jsRound (q : ℚ) : ℤ := Rat.floor (q + 1/2)

/-- `detect` from src/engine.ts, from the point where the native extraction
result is in hand (file I/O and the native extractor are external
collaborators; their result is the `extracted` argument, the caller's
lookup is `lookupFn`, hashing is `sha256`).  The JS truthiness test
`!decoded.success || !decoded.signatureId` treats both `null` and the empty
string as falsy.  The weight constants `0.35, 0.2, 0.15, 0.1` and the
division by 32 are modelled as exact rationals. -/
def detect (P : Type) (extracted : ExtractedModel) (lookupFn : String → Option P)
    (sha256 : List Nat → String) : Except String (DetectResult P) := do
  let votedBitstream := applySoftMajorityVoting extracted.correlations
  let decoded ← decodeBitstream sha256 votedBitstream
  let stats : DetectStats :=
    ⟨extracted.bitConfidence, extracted.bandAgreement, extracted.blocksAnalyzed,
      decoded.errorCount⟩
  if decoded.success = false ∨ decoded.signatureId = none ∨ decoded.signatureId = some "" then
    return ⟨false, 0, none, decoded.payloadHash, stats⟩
  let storedPayload := lookupFn (decoded.signatureId.getD "")
  let bitRecovery : ℚ := max 0 (1 - (decoded.errorCount : ℚ) / 32)
  let confidence := jsRound (100 *
    ((35/100) * extracted.bitConfidence + (20/100) * extracted.bandAgreement +
      (20/100) * bitRecovery + (15/100) * (if decoded.success then (1:ℚ) else 0) +
      (10/100) * (if storedPayload.isSome then (1:ℚ) else 0)))
  return ⟨storedPayload.isSome, confidence, storedPayload, decoded.payloadHash, stats⟩

/-! ## Time-domain spread-spectrum embedder (native/src/watermark.cc,
provided as src/unnamed/part_003, `EmbedWatermark`).

The C++ code works on IEEE doubles; the model is generic over a linear
ordered field `α` together with a record `EmbedOps` of the two
transcendental operations (`std::sqrt`, `std::cos`) and the constant `kPi`
it uses, so every theorem below holds for any interpretation of those.
The unused FFT/psychoacoustic helpers of the file (`applyWatermarkToFrame`,
`calculateMaskingThreshold`, `extractBitFromFrame`) are never called by
`EmbedWatermark` and are not part of the model. -/

/-- The real-valued operations the embedder needs beyond field arithmetic. -/
structure EmbedOps (α : Type) where
  sqrt : α → α
  cos : α → α
  pi : α

/-- 2^64, the modulus of the C++ `uint64_t` arithmetic. -/
def UINT64 : Nat := 18446744073709551616

/-- One `XorShift64::next()` step (shifts 13 left, 7 right, 17 left, each
wrapped to 64 bits). -/
def xorshiftNext (state : Nat) : Nat :=
  let x := state
  let x := (x ^^^ (x <<< 13)) % UINT64
  let x := x ^^^ (x >>> 7)
  let x := (x ^^^ (x <<< 17)) % UINT64
  x

/-- The `XorShift64` constructor: a zero seed is replaced by the golden
ratio constant. -/
def xorshiftInit (seed : Nat) : Nat :=
  if seed = 0 then 0x9e3779b97f4a7c15 else seed

/-- The `i`-th output of `next()` for a generator freshly seeded with
`seed`. -/
def xorshiftOut (seed i : Nat) : Nat :=
  Nat.iterate xorshiftNext (i + 1) (xorshiftInit seed)

/-- `hashSecret`: FNV-1a-64 over the secret's bytes. -/
def hashSecret (secret : List Nat) : Nat :=
  secret.foldl (fun h c => ((h ^^^ (c % 256)) * 0x100000001b3) % UINT64)
    0xcbf29ce484222325

/-- The clamped boxcar mean used twice in the PN pipeline: average of
`v[i+j]` over `j ∈ [-halfWidth, halfWidth]` keeping only indices inside
`[0, v.length)`, divided by the number of included samples.  (Offsets are
shifted by `halfWidth` so everything stays in `Nat`.) -/
def boxcarAvg {α : Type} [LinearOrderedField α] (v : List α) (halfWidth i : Nat) : α :=
  let vals := (List.range (2 * halfWidth + 1)).filterMap (fun t =>
    if halfWidth ≤ i + t ∧ i + t - halfWidth < v.length
    then some (v.getD (i + t - halfWidth) 0) else none)
  vals.sum / (vals.length : α)

/-- The PN-carrier construction shared by embed and extract: bipolar draws
(`nextDouble()*2-1`; `nextDouble` is `(next() >> 11) * 2⁻⁵³`, exact in
binary64), boxcar low-pass of half-width 32, boxcar DC removal of
half-width 256, RMS normalisation guarded by `norm > 1e-10`, Hann window.
The literals `2⁻⁵³` and `1e-10 = 10⁻¹⁰` are exact rationals here. -/
def pnSequence {α : Type} [LinearOrderedField α] (ops : EmbedOps α)
    (seed samplesPerBit : Nat) : List α :=
  let rawPN := (List.range samplesPerBit).map (fun i =>
    ((xorshiftOut seed i >>> 11 : Nat) : α) * (1 / 9007199254740992) * 2 - 1)
  let smoothed := (List.range samplesPerBit).map (fun i => boxcarAvg rawPN 32 i)
  let dcRemoved := (List.range samplesPerBit).map (fun i =>
    smoothed.getD i 0 - boxcarAvg smoothed 256 i)
  let energy := (dcRemoved.map (fun x => x * x)).sum
  let norm := ops.sqrt (energy / (samplesPerBit : α))
  let normalized :=
    if (1 / 10000000000 : α) < norm then dcRemoved.map (fun x => x / norm) else dcRemoved
  normalized.mapIdx (fun i x =>
    x * ((1 / 2) * (1 - ops.cos (2 * ops.pi * (i : α) / ((samplesPerBit - 1 : Nat) : α)))))

/-- Decoded WAV data as handed over by `readWav` / to `writeWav`
(interleaved float samples). -/
structure WavData (α : Type) where
  sampleRate : Nat
  channels : Nat
  samples : List α
deriving DecidableEq

/-- `getChannelSamples`: the strided gather
`out(size/channels); out[i] = interleaved[i*channels + channelIndex]`.
When `channels ∣ size` (the only case the theorems use — otherwise the C++
loop writes past `out`, which is undefined behaviour) the loop performs
exactly these `size/channels` reads. -/
def getChannelSamples {α : Type} [LinearOrderedField α]
    (interleaved : List α) (channels channelIndex : Nat) : List α :=
  (List.range (interleaved.length / channels)).map (fun i =>
    interleaved.getD (i * channels + channelIndex) 0)

/-- `writeChannelSamples`: the strided scatter
`interleaved[j] = channelData[j / channels]` for every `j < size` with
`j % channels = channelIndex`; the `j / channels < channelData.length`
conjunct marks the reads the C++ loop performs in bounds (the theorems'
hypotheses keep every read in bounds). -/
def writeChannelSamples {α : Type} [LinearOrderedField α]
    (interleaved channelData : List α) (channels channelIndex : Nat) : List α :=
  (List.range interleaved.length).map (fun j =>
    if j % channels = channelIndex ∧ j / channels < channelData.length
    then channelData.getD (j / channels) 0 else interleaved.getD j 0)

/-- The per-block sample update
`ch[blockStart+i] += delta i` for `i ∈ [0, samplesPerBit)`. -/
def addPN {α : Type} [LinearOrderedField α] (ch : List α)
    (blockStart samplesPerBit : Nat) (delta : Nat → α) : List α :=
  (List.range samplesPerBit).foldl (fun ch i =>
    ch.set (blockStart + i) (ch.getD (blockStart + i) 0 + delta i)) ch

/-- The embed block loop of `EmbedWatermark`.  Per block `b` (the loop
`blockStart += samplesPerBit` while `blockStart + samplesPerBit ≤ total`
visits exactly `b < nBlocks` with `blockStart = b*samplesPerBit`):
bit selection `bitIndex % bitstream.size()`, bipolar sign, block RMS
(`localEnergy`), adaptive gain `0.007 * clamp(4e, 0.1, 0.6)`
(`std::clamp v lo hi = min (max v lo) hi`), optional removal term, and the
in-place `left[idx] += delta; right[idx] += delta` pass — the two channel
vectors are disjoint, so the single C++ pass equals one `addPN` per
channel with the same `delta`. -/
def embedBlocks {α : Type} [LinearOrderedField α] (ops : EmbedOps α)
    (left0 right0 : List α) (bitstream removeBits : List Nat)
    (pnSequences : List (List α)) (samplesPerBit nBlocks : Nat) :
    List α × List α :=
  (List.range nBlocks).foldl (fun lr b =>
    let left := lr.1
    let right := lr.2
    let blockStart := b * samplesPerBit
    let actualBitIndex := b % bitstream.length
    let bit : Nat := if bitstream.getD actualBitIndex 0 ≠ 0 then 1 else 0
    let pnSeq := pnSequences.getD actualBitIndex []
    let sgn : α := if bit = 1 then 1 else -1
    let localEnergySum := ((List.range samplesPerBit).map (fun i =>
      let s := (left.getD (blockStart + i) 0 + right.getD (blockStart + i) 0) * (1 / 2)
      s * s)).sum
    let localEnergy := ops.sqrt (localEnergySum / (samplesPerBit : α))
    let adaptiveStrength := (7 / 1000 : α) * min (max (localEnergy * 4) (1 / 10)) (6 / 10)
    let removeBit : Option Nat :=
      if removeBits.length = 0 then none
      else some (if removeBits.getD (actualBitIndex % removeBits.length) 0 ≠ 0 then 1 else 0)
    let delta : Nat → α := fun i =>
      let d0 := pnSeq.getD i 0 * sgn * adaptiveStrength
      match removeBit with
      | none => d0
      | some rb => d0 - pnSeq.getD i 0 * (if rb = 1 then (1 : α) else -1) * adaptiveStrength
    (addPN left blockStart samplesPerBit delta, addPN right blockStart samplesPerBit delta))
    (left0, right0)

/-- `EmbedWatermark` from the native addon, from the point where the input
WAV has been read (file I/O is an external collaborator).  It receives all
options exactly as the N-API layer unpacks them — including
`embedStrength` and `rotationSeconds`, which the body then never uses: the
embedding gain is the hard-coded `strength = 0.007` inside `embedBlocks`.
`samplesPerBit = hopSize * 4`; the block loop runs
`⌊totalSamples / samplesPerBit⌋` times (for `hopSize = 0` the C++ loop
would not terminate; the theorems assume `0 < hopSize`). -/
def EmbedWatermark {α : Type} [LinearOrderedField α] (ops : EmbedOps α)
    (wav : WavData α) (bitstream : List Nat)
    (sampleRate channels blockSize hopSize : Nat) (secret : List Nat)
    (embedStrength rotationSeconds : α) (removeBits : List Nat) :
    Except String (WavData α) :=
  if wav.sampleRate ≠ sampleRate ∨ wav.channels ≠ channels then
    Except.error "Unexpected WAV format"
  else
    let left0 := getChannelSamples wav.samples channels 0
    let right0 := if 1 < channels then getChannelSamples wav.samples channels 1 else left0
    let totalSamples := left0.length
    let baseSeed := hashSecret secret
    let samplesPerBit := hopSize * 4
    let payloadLen := bitstream.length
    let pnSequences := (List.range payloadLen).map (fun pos =>
      pnSequence ops (baseSeed ^^^ ((pos * 0x9e3779b97f4a7c15) % UINT64)) samplesPerBit)
    let nBlocks := totalSamples / samplesPerBit
    let lr := embedBlocks ops left0 right0 bitstream removeBits pnSequences samplesPerBit nBlocks
    let interleaved0 := List.replicate wav.samples.length (0 : α)
    let interleaved1 := writeChannelSamples interleaved0 lr.1 channels 0
    let interleaved2 :=
      if 1 < channels then writeChannelSamples interleaved1 lr.2 channels 1 else interleaved1
    Except.ok ⟨wav.sampleRate, wav.channels, interleaved2⟩

/-- The option bag of the TypeScript `embedWatermark` wrapper
(src/addon.ts): optional fields fall back to the public-layer defaults. -/
structure EmbedOptionsTS (α : Type) where
  secret : List Nat
  sampleRate : Option Nat
  channels : Option Nat
  blockSize : Option Nat
  hopSize : Option Nat
  embedStrength : Option α
  rotationSeconds : Option α
  removeBitstream : Option (List Nat)

/-- `embedWatermark` from src/addon.ts: applies the `??` defaults
(44100, 2, 4096, 1024, 0.0005, 5, null→absent) and calls the native
`EmbedWatermark`. -/
def embedWatermark {α : Type} [LinearOrderedField α] (ops : EmbedOps α)
    (wav : WavData α) (bitstream : List Nat) (options : EmbedOptionsTS α) :
    Except String (WavData α) :=
  EmbedWatermark ops wav bitstream
    (options.sampleRate.getD 44100) (options.channels.getD 2)
    (options.blockSize.getD 4096) (options.hopSize.getD 1024) options.secret
    (options.embedStrength.getD (5 / 10000)) (options.rotationSeconds.getD 5)
    (options.removeBitstream.getD [])

/-! ## Auxiliary definitions used by the verification layer -/

/-- Decidable equality for `Except`, for evaluating the codec on concrete
inputs. -/
instance {A B : Type} [DecidableEq A] [DecidableEq B] : DecidableEq (Except A B) := fun a b =>
  match a, b with
  | Except.ok x, Except.ok y =>
      if h : x = y then isTrue (by simp [h]) else isFalse (by simp [h])
  | Except.error x, Except.error y =>
      if h : x = y then isTrue (by simp [h]) else isFalse (by simp [h])
  | Except.ok _, Except.error _ => isFalse (by simp)
  | Except.error _, Except.ok _ => isFalse (by simp)

/-- Spec-side view of the best-match tracking of the `findSync` loop: fold
over the window indices, keeping the strictly-best (count, index) pair. -/
def findSyncScan (data pattern : List Nat) (idxs : List Nat) (b : Nat) (bi : Int) : Nat × Int :=
  idxs.foldl (fun s j =>
    if s.1 < matchCount data pattern j then (matchCount data pattern j, (j : Int)) else s) (b, bi)

/-- Spec-side: the best Hamming agreement of `SYNC_PATTERN` over all
windows of `data` (`windows = [0, data.length − 64]`). -/
def windowMax (data : List Nat) : Nat :=
  ((List.range' 0 (data.length + 1 - 64)).map (matchCount data SYNC_PATTERN)).foldl max 0

/-- Concrete 88-entry correlation vector used by the C5 analysis: the 64
sync bits mapped to ±1, the 16-bit length field for the value 16
(`-1` except `+1` at field position 11), then 8 entries of `-1` — a
stream that truncates after a single all-zero codeword byte. -/
def corrEx88 : List ℚ := [
  1, -1, 1, -1, 1, 1, -1, 1, -1, 1, -1, 1, -1, -1, 1, -1, 1, 1, 1, -1,
  -1, 1, 1, -1, -1, 1, 1, -1, -1, -1, 1, 1, 1, -1, -1, 1, 1, -1, 1, -1,
  -1, 1, 1, 1, -1, -1, 1, -1, 1, -1, 1, 1, -1, 1, -1, -1, 1, 1, -1, -1,
  1, -1, 1, 1,
  -1, -1, -1, -1, -1, -1, -1, -1, -1, -1, -1, 1, -1, -1, -1, -1,
  -1, -1, -1, -1, -1, -1, -1, -1]

/-! ## Theorems -/

/-- The literal `gfExp`/`gfLog` tables are exactly what the source's
`initTables` loop (`gfInit`) produces. -/
theorem gfTables_certified : gfInit = (gfExp, gfLog) := by decide

theorem getD_map_range {A : Type} (f : Nat → A) (d : A) {n i : Nat} (h : i < n) :
    ((List.range n).map f).getD i d = f i := by
  rw [List.getD_eq_getElem _ _ (by simpa using h)]
  simp

/-- C1 counterexample: already for the byte string `[0x01]` at depth 5 the
claimed round-trip fails — the interleave truncation drops a data bit
(`interleave` keeps only 8 of the 10 matrix cells, and cell `(4,1)` holding
bit 7 is cut off), so the round-trip returns the zero vector. -/
theorem interleave_roundtrip_cex :
    deinterleaveBits (interleaveBits (bytesToBits [1]) 5) 5 ≠ bytesToBits [1] := by decide

/-- C1 (amended): for every bit vector `x` and depth `d ≥ 1` that divides
`x.length` — in particular bits of byte strings at any depth dividing
`8·|b|`, such as the codec's depth 8 on the 384-bit codeword —
`deinterleaveBits (interleaveBits x d) d = x`. -/
theorem interleave_roundtrip (x : List Nat) (d : Nat) (hd : 1 ≤ d) (hdvd : d ∣ x.length) :
    deinterleaveBits (interleaveBits x d) d = x := by
  by_cases hd1 : d ≤ 1
  · simp [interleaveBits, deinterleaveBits, hd1]
  · obtain ⟨m, hm⟩ := hdvd
    have hd0 : 0 < d := by omega
    have hceil : (d * m + d - 1) / d = m := by
      have h1 : d * m + d - 1 = d * m + (d - 1) := by omega
      rw [h1, Nat.mul_add_div hd0, Nat.div_eq_of_lt (by omega), Nat.add_zero]
    have hI : interleaveBits x d =
        (List.range (d * m)).map (fun idx => x.getD ((idx % d) * m + idx / d) 0) := by
      simp only [interleaveBits, if_neg hd1]
      rw [hm, hceil]
      exact List.take_of_length_le (by simp)
    have hIlen : (interleaveBits x d).length = x.length := by
      rw [hI]; simp [hm]
    have hD : deinterleaveBits (interleaveBits x d) d =
        (List.range (d * m)).map (fun k => (interleaveBits x d).getD ((k % m) * d + k / m) 0) := by
      simp only [deinterleaveBits, if_neg hd1]
      rw [hIlen, hm, hceil]
      exact List.take_of_length_le (by simp)
    rw [hD]
    apply List.ext_getElem
    · simp [hm]
    · intro k hk1 hk2
      simp only [List.getElem_map, List.getElem_range]
      have hkdm : k < d * m := by simpa using hk1
      have hm0 : 0 < m := by
        rcases Nat.eq_zero_or_pos m with h | h
        · subst h; omega
        · exact h
      have hkm : k % m < m := Nat.mod_lt _ hm0
      have hkd : k / m < d := by
        rw [Nat.div_lt_iff_lt_mul hm0]
        omega
      have hidx : (k % m) * d + k / m < d * m := by
        have h2 : (k % m) * d ≤ (m - 1) * d := Nat.mul_le_mul_right d (by omega)
        have h3 : (m - 1) * d + d = m * d := by
          rw [← Nat.succ_mul]
          congr 1
          omega
        have h4 : m * d = d * m := Nat.mul_comm m d
        omega
      rw [hI, List.getD_eq_getElem _ _ (by simpa using hidx)]
      simp only [List.getElem_map, List.getElem_range]
      have e1 : ((k % m) * d + k / m) % d = k / m := by
        rw [Nat.mul_comm, Nat.mul_add_mod, Nat.mod_eq_of_lt hkd]
      have e2 : ((k % m) * d + k / m) / d = k % m := by
        rw [Nat.mul_comm, Nat.mul_add_div hd0, Nat.div_eq_of_lt hkd, Nat.add_zero]
      rw [e1, e2]
      have e3 : (k / m) * m + k % m = k := by
        rw [Nat.mul_comm]
        exact Nat.div_add_mod k m
      rw [e3, List.getD_eq_getElem _ _ hk2]

/-- Witness for `interleave_roundtrip` at the byte `0xAD` and the codec's
depth 8. -/
theorem interleave_roundtrip_witness :
    1 ≤ 8 ∧ (8 : Nat) ∣ (bytesToBits [173]).length ∧
    deinterleaveBits (interleaveBits (bytesToBits [173]) 8) 8 = bytesToBits [173] :=
  ⟨by decide, by decide, interleave_roundtrip (bytesToBits [173]) 8 (by decide) (by decide)⟩

/-- C9: `gfDiv` returns `0` for a zero dividend (any divisor, including 0,
because the `a === 0` test comes first), fails with the division-by-zero
error for `a ≠ 0, b = 0`, and otherwise returns
`exp[(log[a] + 255 − log[b]) mod 255]`. -/
theorem gfDiv_spec (a b : Nat) (ha : a ≠ 0) (hb : b ≠ 0) :
    (∀ c, gfDiv 0 c = Except.ok 0) ∧
    gfDiv a 0 = Except.error "Division by zero" ∧
    gfDiv a b = Except.ok (gfExp.getD ((gfLog.getD a 0 + 255 - gfLog.getD b 0) % 255) 0) := by
  refine ⟨?_, ?_, ?_⟩
  · intro c
    simp [gfDiv]
  · simp [gfDiv, ha]
  · simp [gfDiv, ha, hb]

/-- Witness for `gfDiv_spec` at `a = 3`, `b = 7`. -/
theorem gfDiv_spec_witness :
    (3 : Nat) ≠ 0 ∧ (7 : Nat) ≠ 0 ∧
    ((∀ c, gfDiv 0 c = Except.ok 0) ∧ gfDiv 3 0 = Except.error "Division by zero" ∧
      gfDiv 3 7 = Except.ok (gfExp.getD ((gfLog.getD 3 0 + 255 - gfLog.getD 7 0) % 255) 0)) :=
  ⟨by decide, by decide, gfDiv_spec 3 7 (by decide) (by decide)⟩

/-- C2 (code bug): the decoder never locates genuine byte errors.  For the
key `K = 00 01 … 0f`, flipping the single codeword byte at position 5 by
`0x41` (one corrupted byte position, well within the claimed ≤16) makes
`rsDecode` return `corrected = false` with `errorCount = 0` and the
corrupted data prefix — the claim requires `data = K`, `corrected = true`,
`errorCount = 1`.  (The error-free round trip, also part of the claim, does
hold on this key: last conjunct.)  The slip: the Chien search evaluates the
error locator itself instead of its reversal, so the roots corresponding to
true error positions fall outside the searched range. -/
theorem rsDecode_bounded_error_bug :
    (rsEncode [0, 1, 2, 3, 4, 5, 6, 7, 8, 9, 10, 11, 12, 13, 14, 15] 32).set 5
        ((rsEncode [0, 1, 2, 3, 4, 5, 6, 7, 8, 9, 10, 11, 12, 13, 14, 15] 32).getD 5 0 ^^^ 65) =
      [0, 1, 2, 3, 4, 68, 6, 7, 8, 9, 10, 11, 12, 13, 14, 15, 158, 28, 165, 199, 13, 234,
        241, 141, 163, 36, 218, 168, 241, 94, 186, 118, 223, 83, 170, 113, 219, 153, 3, 243,
        158, 150, 148, 34, 136, 13, 162, 145] ∧
    rsDecode [0, 1, 2, 3, 4, 68, 6, 7, 8, 9, 10, 11, 12, 13, 14, 15, 158, 28, 165, 199, 13,
        234, 241, 141, 163, 36, 218, 168, 241, 94, 186, 118, 223, 83, 170, 113, 219, 153, 3,
        243, 158, 150, 148, 34, 136, 13, 162, 145] 32 =
      Except.ok ⟨[0, 1, 2, 3, 4, 68, 6, 7, 8, 9, 10, 11, 12, 13, 14, 15], false, 0⟩ ∧
    ([0, 1, 2, 3, 4, 68, 6, 7, 8, 9, 10, 11, 12, 13, 14, 15] : List Nat) ≠
      [0, 1, 2, 3, 4, 5, 6, 7, 8, 9, 10, 11, 12, 13, 14, 15] ∧
    rsDecode (rsEncode [0, 1, 2, 3, 4, 5, 6, 7, 8, 9, 10, 11, 12, 13, 14, 15] 32) 32 =
      Except.ok ⟨[0, 1, 2, 3, 4, 5, 6, 7, 8, 9, 10, 11, 12, 13, 14, 15], true, 0⟩ := by
  refine ⟨by decide, by decide, by decide, by decide⟩

/-- Fidelity of the number-or-undefined decoder on the empty codeword:
`polyEval([])` is `undefined`, `undefined !== 0` sets `hasError`, the
Chien loop over an empty message finds no positions, and the decoder
returns `corrected = false` with `errorCount = 0`. -/
theorem rsDecode_nil : rsDecode [] 32 = Except.ok ⟨[], false, 0⟩ := by decide

/-- C7: `applySoftMajorityVoting` with `T = votePeriod = 464`: when
`⌊N/T⌋ ≥ 2` it returns exactly `T` bits, bit `p` being the 0/1 sign of
`S[p] = Σ_{r<⌊N/T⌋} C[r·T+p]` (only whole repetitions are summed — the
guard `idx < N` of the source is always true there, so a trailing partial
period contributes nothing); when `⌊N/T⌋ < 2` it returns `N` bits,
bit `i` being the 0/1 sign of `C[i]`. -/
theorem applySoftMajorityVoting_folds (C : List ℚ) :
    (2 ≤ C.length / votePeriod →
      (applySoftMajorityVoting C).length = votePeriod ∧
      ∀ p, p < votePeriod →
        (applySoftMajorityVoting C).getD p 0 =
          (if 0 < ((List.range (C.length / votePeriod)).map
              (fun r => C.getD (r * votePeriod + p) 0)).sum then 1 else 0))
    ∧ (C.length / votePeriod < 2 →
      (applySoftMajorityVoting C).length = C.length ∧
      ∀ i, i < C.length →
        (applySoftMajorityVoting C).getD i 0 = (if 0 < C.getD i 0 then 1 else 0)) := by
  constructor
  · intro hreps
    have hnot : ¬ (C.length / votePeriod < 2) := by omega
    constructor
    · simp [applySoftMajorityVoting, hnot]
    · intro p hp
      have hguard : ∀ r ∈ List.range (C.length / votePeriod),
          (if r * votePeriod + p < C.length then C.getD (r * votePeriod + p) 0 else 0) =
            C.getD (r * votePeriod + p) 0 := by
        intro r hr
        rw [List.mem_range] at hr
        have hT : votePeriod = 464 := rfl
        rw [if_pos (by simp only [hT] at hr hp ⊢; omega)]
      simp only [applySoftMajorityVoting, if_neg hnot]
      rw [List.getD_eq_getElem _ _ (by simpa using hp)]
      simp only [List.getElem_map, List.getElem_range]
      rw [List.map_congr_left hguard]
  · intro hreps
    constructor
    · simp [applySoftMajorityVoting, hreps]
    · intro i hi
      simp only [applySoftMajorityVoting, if_pos hreps]
      rw [List.getD_eq_getElem _ _ (by simpa using hi)]
      simp [List.getElem_map, List.getElem?_eq_getElem hi]


/-- Witness for `applySoftMajorityVoting_folds` on two full periods of
ones. -/
theorem applySoftMajorityVoting_folds_witness :
    2 ≤ (List.replicate 928 (1:ℚ)).length / votePeriod ∧
    ((applySoftMajorityVoting (List.replicate 928 (1:ℚ))).length = votePeriod ∧
      ∀ p, p < votePeriod →
        (applySoftMajorityVoting (List.replicate 928 (1:ℚ))).getD p 0 =
          (if 0 < ((List.range ((List.replicate 928 (1:ℚ)).length / votePeriod)).map
              (fun r => (List.replicate 928 (1:ℚ)).getD (r * votePeriod + p) 0)).sum
           then 1 else 0)) :=
  ⟨by decide, (applySoftMajorityVoting_folds (List.replicate 928 (1:ℚ))).1 (by decide)⟩

/-- C10: the voter only ever emits bits 0 and 1, decides ties (zero or
negative single correlations and folded sums) toward 0, and maps an
all-zero correlation vector to an all-zero bit vector. -/
theorem applySoftMajorityVoting_zeroOne (C : List ℚ) :
    (∀ b ∈ applySoftMajorityVoting C, b = 0 ∨ b = 1)
    ∧ (2 ≤ C.length / votePeriod → ∀ p, p < votePeriod →
        ((List.range (C.length / votePeriod)).map
          (fun r => if r * votePeriod + p < C.length
                    then C.getD (r * votePeriod + p) 0 else 0)).sum ≤ 0 →
        (applySoftMajorityVoting C).getD p 0 = 0)
    ∧ (C.length / votePeriod < 2 → ∀ i, i < C.length → C.getD i 0 ≤ 0 →
        (applySoftMajorityVoting C).getD i 0 = 0)
    ∧ ((∀ c ∈ C, c = 0) → ∀ b ∈ applySoftMajorityVoting C, b = 0) := by
  refine ⟨?_, ?_, ?_, ?_⟩
  · intro b hb
    simp only [applySoftMajorityVoting] at hb
    split at hb
    · rw [List.mem_map] at hb
      obtain ⟨c, _, hc⟩ := hb
      split at hc
      · right; omega
      · left; omega
    · rw [List.mem_map] at hb
      obtain ⟨i, _, hc⟩ := hb
      split at hc
      · right; omega
      · left; omega
  · intro hreps p hp hsum
    have hnot : ¬ (C.length / votePeriod < 2) := by omega
    simp only [applySoftMajorityVoting, if_neg hnot]
    rw [List.getD_eq_getElem _ _ (by simpa using hp)]
    simp only [List.getElem_map, List.getElem_range]
    rw [if_neg (by exact not_lt.mpr hsum)]
  · intro hreps i hi hc
    simp only [applySoftMajorityVoting, if_pos hreps]
    rw [List.getD_eq_getElem _ _ (by simpa using hi)]
    simp only [List.getElem_map]
    rw [if_neg]
    rw [not_lt]
    calc C[i] = C.getD i 0 := (List.getD_eq_getElem _ _ hi).symm
    _ ≤ 0 := hc
  · intro hzero b hb
    have hgetD : ∀ j, C.getD j 0 = 0 := by
      intro j
      by_cases hj : j < C.length
      · rw [List.getD_eq_getElem _ _ hj]
        exact hzero _ (List.getElem_mem hj)
      · rw [List.getD_eq_default _ _ (by omega)]
    simp only [applySoftMajorityVoting] at hb
    split at hb
    · rw [List.mem_map] at hb
      obtain ⟨c, hcm, hc⟩ := hb
      rw [hzero c hcm] at hc
      simp at hc
      omega
    · rw [List.mem_map] at hb
      obtain ⟨i, _, hc⟩ := hb
      have hz : ((List.range (C.length / votePeriod)).map
          (fun r => if r * votePeriod + i < C.length
                    then C.getD (r * votePeriod + i) 0 else 0)).sum = 0 := by
        apply List.sum_eq_zero
        intro q hq
        rw [List.mem_map] at hq
        obtain ⟨r, _, hr⟩ := hq
        rw [← hr]
        split
        · exact hgetD _
        · rfl
      rw [hz] at hc
      simp at hc
      omega

/-- Witness for `applySoftMajorityVoting_zeroOne` on the single negative
correlation `[-1]`. -/
theorem applySoftMajorityVoting_zeroOne_witness :
    ([(-1:ℚ)].length / votePeriod < 2) ∧ (0 < [(-1:ℚ)].length) ∧ ((-1:ℚ) ≤ 0) ∧
    (applySoftMajorityVoting [(-1:ℚ)]).getD 0 0 = 0 ∧
    (∀ b ∈ applySoftMajorityVoting [(-1:ℚ)], b = 0 ∨ b = 1) :=
  ⟨by decide, by decide, by decide,
    (applySoftMajorityVoting_zeroOne [(-1:ℚ)]).2.2.1 (by decide) 0 (by decide) (by decide),
    (applySoftMajorityVoting_zeroOne [(-1:ℚ)]).1⟩

theorem le_foldl_max (l : List Nat) : ∀ b : Nat, b ≤ l.foldl max b := by
  induction l with
  | nil => intro b; exact le_refl b
  | cons x t ih =>
    intro b
    rw [List.foldl_cons]
    exact le_trans (le_max_left b x) (ih (max b x))

theorem findSyncAux_no85 (data pattern : List Nat) (hp : pattern.length = 64)
    (hno : ∀ j, j + 64 ≤ data.length → matchCount data pattern j < 55) :
    ∀ fuel i b bi, data.length + 1 - i ≤ fuel →
      findSyncAux data pattern fuel i b bi =
        (if 39 ≤ (findSyncScan data pattern (List.range' i (data.length + 1 - 64 - i)) b bi).1
         then (findSyncScan data pattern (List.range' i (data.length + 1 - 64 - i)) b bi).2
         else -1) := by
  intro fuel
  induction fuel with
  | zero =>
    intro i b bi hf
    have hc0 : data.length + 1 - 64 - i = 0 := by omega
    rw [hc0]
    simp only [findSyncAux, List.range', findSyncScan, List.foldl_nil]
    rw [hp]
    by_cases h39 : 39 ≤ b
    · rw [if_pos (show (0:Nat) < 64 ∧ 64 * 3 ≤ b * 5 from by omega), if_pos h39]
    · rw [if_neg (show ¬((0:Nat) < 64 ∧ 64 * 3 ≤ b * 5) from by omega), if_neg h39]
  | succ fuel ih =>
    intro i b bi hf
    by_cases hterm : data.length < i + pattern.length
    · have hc0 : data.length + 1 - 64 - i = 0 := by omega
      rw [hc0]
      simp only [findSyncAux, List.range', findSyncScan, List.foldl_nil]
      rw [if_pos hterm, hp]
      by_cases h39 : 39 ≤ b
      · rw [if_pos (show (0:Nat) < 64 ∧ 64 * 3 ≤ b * 5 from by omega), if_pos h39]
      · rw [if_neg (show ¬((0:Nat) < 64 ∧ 64 * 3 ≤ b * 5) from by omega), if_neg h39]
    · simp only [findSyncAux]
      rw [if_neg hterm]
      have hvalid : i + 64 ≤ data.length := by omega
      have hm55 : matchCount data pattern i < 55 := hno i hvalid
      rw [if_neg (show ¬(0 < pattern.length ∧ pattern.length * 17 ≤
        matchCount data pattern i * 20) from by rw [hp]; omega)]
      rw [ih (i + 1) _ _ (by omega)]
      have hcnt : data.length + 1 - 64 - i = (data.length + 1 - 64 - (i + 1)) + 1 := by omega
      rw [hcnt, List.range'_succ]
      have hstep : ∀ b2 bi2, findSyncScan data pattern (i :: List.range' (i + 1)
          (data.length + 1 - 64 - (i + 1))) b2 bi2 =
          findSyncScan data pattern (List.range' (i + 1) (data.length + 1 - 64 - (i + 1)))
            (if b2 < matchCount data pattern i then matchCount data pattern i else b2)
            (if b2 < matchCount data pattern i then (i : Int) else bi2) := by
        intro b2 bi2
        by_cases hlt : b2 < matchCount data pattern i <;>
          simp [findSyncScan, List.foldl_cons, hlt]
      rw [hstep]

theorem findSyncAux_hit (data pattern : List Nat) (hp : pattern.length = 64) :
    ∀ fuel i b bi iStar, data.length + 1 - i ≤ fuel →
      i ≤ iStar → iStar + 64 ≤ data.length →
      55 ≤ matchCount data pattern iStar →
      (∀ j, i ≤ j → j < iStar → matchCount data pattern j < 55) →
      findSyncAux data pattern fuel i b bi = iStar := by
  intro fuel
  induction fuel with
  | zero =>
    intro i b bi iStar hf h1 h2 h3 h4
    omega
  | succ fuel ih =>
    intro i b bi iStar hf h1 h2 h3 h4
    simp only [findSyncAux]
    have hterm : ¬(data.length < i + pattern.length) := by rw [hp]; omega
    rw [if_neg hterm]
    by_cases hi : i = iStar
    · subst hi
      rw [if_pos (show 0 < pattern.length ∧ pattern.length * 17 ≤
        matchCount data pattern i * 20 from by rw [hp]; omega)]
    · have hm55 : matchCount data pattern i < 55 := h4 i (le_refl i) (by omega)
      rw [if_neg (show ¬(0 < pattern.length ∧ pattern.length * 17 ≤
        matchCount data pattern i * 20) from by rw [hp]; omega)]
      exact ih (i + 1) _ _ iStar (by omega) (by omega) h2 h3
        (fun j hj1 hj2 => h4 j (by omega) hj2)

theorem findSyncScan_props (data pattern : List Nat) :
    ∀ (c i b : Nat) (bi : Int),
      (findSyncScan data pattern (List.range' i c) b bi).1 =
        ((List.range' i c).map (matchCount data pattern)).foldl max b
      ∧ ((findSyncScan data pattern (List.range' i c) b bi).1 = b →
          (findSyncScan data pattern (List.range' i c) b bi).2 = bi)
      ∧ (b < (findSyncScan data pattern (List.range' i c) b bi).1 →
          ∃ j0, i ≤ j0 ∧ j0 < i + c ∧
            (findSyncScan data pattern (List.range' i c) b bi).2 = (j0 : Int) ∧
            matchCount data pattern j0 = (findSyncScan data pattern (List.range' i c) b bi).1 ∧
            ∀ j, i ≤ j → j < j0 →
              matchCount data pattern j < (findSyncScan data pattern (List.range' i c) b bi).1) := by
  intro c
  induction c with
  | zero =>
    intro i b bi
    refine ⟨rfl, fun _ => rfl, fun h => absurd h (lt_irrefl b)⟩
  | succ c ih =>
    intro i b bi
    rw [List.range'_succ]
    by_cases hlt : b < matchCount data pattern i
    · have hstep : findSyncScan data pattern (i :: List.range' (i + 1) c) b bi =
          findSyncScan data pattern (List.range' (i + 1) c) (matchCount data pattern i) (i : Int) := by
        simp [findSyncScan, List.foldl_cons, hlt]
      obtain ⟨ih1, ih2, ih3⟩ := ih (i + 1) (matchCount data pattern i) (i : Int)
      rw [hstep]
      have hmax : max b (matchCount data pattern i) = matchCount data pattern i := by omega
      refine ⟨?_, ?_, ?_⟩
      · rw [ih1, List.map_cons, List.foldl_cons, hmax]
      · intro hs
        have hge := le_foldl_max ((List.range' (i + 1) c).map (matchCount data pattern))
          (matchCount data pattern i)
        rw [ih1] at hs
        omega
      · intro hbs
        have hge := le_foldl_max ((List.range' (i + 1) c).map (matchCount data pattern))
          (matchCount data pattern i)
        rcases eq_or_lt_of_le (by rw [ih1]; exact hge :
            matchCount data pattern i ≤ (findSyncScan data pattern (List.range' (i + 1) c)
              (matchCount data pattern i) (i : Int)).1) with heq | hlt2
        · refine ⟨i, le_refl i, by omega, ih2 heq.symm, heq, fun j hj1 hj2 => absurd hj1 (by omega)⟩
        · obtain ⟨j0, h1, h2, h3, h4, h5⟩ := ih3 hlt2
          refine ⟨j0, by omega, by omega, h3, h4, ?_⟩
          intro j hj1 hj2
          rcases Nat.eq_or_lt_of_le hj1 with rfl | hj1a
          · omega
          · exact h5 j hj1a hj2
    · have hstep : findSyncScan data pattern (i :: List.range' (i + 1) c) b bi =
          findSyncScan data pattern (List.range' (i + 1) c) b bi := by
        simp [findSyncScan, List.foldl_cons, hlt]
      obtain ⟨ih1, ih2, ih3⟩ := ih (i + 1) b bi
      rw [hstep]
      have hmax : max b (matchCount data pattern i) = b := by omega
      refine ⟨?_, ih2, ?_⟩
      · rw [ih1, List.map_cons, List.foldl_cons, hmax]
      · intro hbs
        obtain ⟨j0, h1, h2, h3, h4, h5⟩ := ih3 hbs
        refine ⟨j0, by omega, by omega, h3, h4, ?_⟩
        intro j hj1 hj2
        rcases Nat.eq_or_lt_of_le hj1 with rfl | hj1a
        · omega
        · exact h5 j hj1a hj2

/-- C3 (amended): `findSync` scans windows of 64 bits against
`SYNC_PATTERN`.  It returns the FIRST index whose window matches at least
55 of 64 bits (the `>= 0.85` early exit); failing that, it returns the
earliest index attaining the maximal match count provided that maximum is
at least **39** of 64 bits (the float test `bestMatch/64 >= 0.6` holds
exactly when `bestMatch >= 39`, not the spec's 38), and `-1` otherwise. -/
theorem findSync_spec (data : List Nat) :
    (∀ i, i + 64 ≤ data.length → 55 ≤ matchCount data SYNC_PATTERN i →
      (∀ j, j < i → matchCount data SYNC_PATTERN j < 55) →
      findSync data SYNC_PATTERN = i)
    ∧ ((∀ i, i + 64 ≤ data.length → matchCount data SYNC_PATTERN i < 55) →
      (39 ≤ windowMax data →
        ∃ i0, i0 + 64 ≤ data.length ∧ matchCount data SYNC_PATTERN i0 = windowMax data ∧
          (∀ j, j < i0 → matchCount data SYNC_PATTERN j < windowMax data) ∧
          findSync data SYNC_PATTERN = i0)
      ∧ (windowMax data < 39 → findSync data SYNC_PATTERN = -1)) := by
  have hp : SYNC_PATTERN.length = 64 := by decide
  constructor
  · intro i hvalid h55 hprev
    exact findSyncAux_hit data SYNC_PATTERN hp (data.length + 1) 0 0 (-1) i (by omega)
      (Nat.zero_le i) hvalid h55 (fun j _ hj2 => hprev j hj2)
  · intro hno
    have heq := findSyncAux_no85 data SYNC_PATTERN hp hno (data.length + 1) 0 0 (-1)
      (by omega)
    obtain ⟨hs1, hs2, hs3⟩ := findSyncScan_props data SYNC_PATTERN (data.length + 1 - 64) 0 0 (-1)
    simp only [Nat.sub_zero] at heq
    have hM : windowMax data =
        (findSyncScan data SYNC_PATTERN (List.range' 0 (data.length + 1 - 64)) 0 (-1)).1 := by
      rw [hs1]
      rfl
    constructor
    · intro h39
      obtain ⟨j0, hj1, hj2, hj3, hj4, hj5⟩ := hs3 (by omega)
      refine ⟨j0, by omega, by rw [hM]; exact hj4, ?_, ?_⟩
      · intro j hj
        rw [hM]
        exact hj5 j (Nat.zero_le j) hj
      · unfold findSync
        rw [heq, if_pos (by omega), hj3]
    · intro h39
      unfold findSync
      rw [heq, if_neg (by omega)]

/-- C3 counterexample to the spec's literal threshold: a 64-bit buffer
whose single window matches exactly 38 of the 64 sync bits.  The spec
("at least 38 of its 64 bits") predicts a sync at index 0; the code
returns `-1` because `38/64 >= 0.6` is false in binary64. -/
theorem findSync_cex :
    matchCount [0, 1, 0, 1, 0, 0, 1, 0, 1, 0, 1, 0, 1, 1, 0, 1, 0, 0, 0, 1, 1, 0, 0, 1, 1, 0,
        1, 0, 0, 0, 1, 1, 1, 0, 0, 1, 1, 0, 1, 0, 0, 1, 1, 1, 0, 0, 1, 0, 1, 0, 1, 1, 0, 1,
        0, 0, 1, 1, 0, 0, 1, 0, 1, 1] SYNC_PATTERN 0 = 38 ∧
    findSync [0, 1, 0, 1, 0, 0, 1, 0, 1, 0, 1, 0, 1, 1, 0, 1, 0, 0, 0, 1, 1, 0, 0, 1, 1, 0,
        1, 0, 0, 0, 1, 1, 1, 0, 0, 1, 1, 0, 1, 0, 0, 1, 1, 1, 0, 0, 1, 0, 1, 0, 1, 1, 0, 1,
        0, 0, 1, 1, 0, 0, 1, 0, 1, 1] SYNC_PATTERN = -1 := by
  constructor
  · decide
  · decide

theorem findSync_spec_witness :
    0 + 64 ≤ SYNC_PATTERN.length ∧ 55 ≤ matchCount SYNC_PATTERN SYNC_PATTERN 0 ∧
    findSync SYNC_PATTERN SYNC_PATTERN = 0 :=
  ⟨by decide, by decide, (findSync_spec SYNC_PATTERN).1 0 (by decide) (by decide)
    (fun j hj => absurd hj (Nat.not_lt_zero j))⟩



/-! ## Framing layout (C6) -/

theorem hexCharVal_hexDigit : ∀ v, v < 16 → hexCharVal (hexDigit v) = v := by decide

theorem hexDigit_ne_dash : ∀ v, v < 16 → hexDigit v ≠ '-' := by decide

theorem flatMap_hex_length (K : List Nat) : (K.flatMap byteHexChars).length = 2 * K.length := by
  induction K with
  | nil => rfl
  | cons a K ih => simp [List.flatMap_cons, byteHexChars, ih]; omega

theorem flatMap_hex_getD (K : List Nat) :
    ∀ i, i < K.length →
      (K.flatMap byteHexChars).getD (2 * i) 'x' = hexDigit (K.getD i 0 / 16) ∧
      (K.flatMap byteHexChars).getD (2 * i + 1) 'x' = hexDigit (K.getD i 0 % 16) := by
  induction K with
  | nil => intro i hi; simp at hi
  | cons a K ih =>
    intro i hi
    cases i with
    | zero => simp [List.flatMap_cons, byteHexChars]
    | succ i =>
      have h2 : 2 * (i + 1) = (2 * i + 1) + 1 := by omega
      simp only [List.flatMap_cons, byteHexChars, h2, List.cons_append, List.getD_cons_succ,
        List.getD_cons_zero, List.nil_append]
      have := ih i (by simpa using hi)
      simpa using this

theorem mem_flatMap_hex (K : List Nat) (hbytes : ∀ b ∈ K, b < 256) :
    ∀ c ∈ K.flatMap byteHexChars, c ≠ '-' := by
  intro c hc
  rw [List.mem_flatMap] at hc
  obtain ⟨b, hb, hcb⟩ := hc
  have hb256 := hbytes b hb
  simp only [byteHexChars, List.mem_cons, List.not_mem_nil, or_false] at hcb
  rcases hcb with h | h
  · subst h; exact hexDigit_ne_dash _ (by omega)
  · subst h; exact hexDigit_ne_dash _ (Nat.mod_lt _ (by omega))

theorem uuid_roundtrip (K : List Nat) (hlen : K.length = 16) (hbytes : ∀ b ∈ K, b < 256) :
    uuidToBytes (bytesToUuid K) = K := by
  have hcs : (K.flatMap byteHexChars).length = 32 := by rw [flatMap_hex_length, hlen]
  have hno : ∀ c ∈ K.flatMap byteHexChars, c ≠ '-' := mem_flatMap_hex K hbytes
  have hfilter : (bytesToUuid K).toList.filter (fun c => c ≠ '-') = K.flatMap byteHexChars := by
    simp only [bytesToUuid, String.toList]
    have hpieces : ∀ (piece : List Char), piece ⊆ K.flatMap byteHexChars →
        piece.filter (fun c => c ≠ '-') = piece := by
      intro piece hsub
      apply List.filter_eq_self.mpr
      intro a ha
      simpa using hno a (hsub ha)
    simp only [List.filter_append]
    rw [hpieces _ (List.take_subset _ _), hpieces _ (List.Subset.trans (List.take_subset _ _) (List.drop_subset _ _)),
      hpieces _ (List.Subset.trans (List.take_subset _ _) (List.drop_subset _ _)),
      hpieces _ (List.Subset.trans (List.take_subset _ _) (List.drop_subset _ _)),
      hpieces _ (List.Subset.trans (List.take_subset _ _) (List.drop_subset _ _))]
    have hdash : List.filter (fun c => decide (c ≠ '-')) ['-'] = [] := by decide
    simp only [hdash, List.append_nil, List.nil_append]
    set cs := K.flatMap byteHexChars with hcsdef
    have e20 : (cs.drop 20).take 12 = cs.drop 20 := List.take_of_length_le (by simp [hcs])
    have e16 : (cs.drop 16).take 4 ++ cs.drop 20 = cs.drop 16 := by
      have h := List.take_append_drop 4 (cs.drop 16)
      rw [List.drop_drop] at h
      norm_num at h
      exact h
    have e12 : (cs.drop 12).take 4 ++ cs.drop 16 = cs.drop 12 := by
      have h := List.take_append_drop 4 (cs.drop 12)
      rw [List.drop_drop] at h
      norm_num at h
      exact h
    have e8 : (cs.drop 8).take 4 ++ cs.drop 12 = cs.drop 8 := by
      have h := List.take_append_drop 4 (cs.drop 8)
      rw [List.drop_drop] at h
      norm_num at h
      exact h
    simp only [List.append_assoc]
    rw [e20, e16, e12, e8, List.take_append_drop]
  unfold uuidToBytes
  rw [hfilter]
  apply List.ext_getElem
  · simp [hlen]
  · intro i h1 h2
    simp only [List.getElem_map, List.getElem_range]
    have hi : i < K.length := h2
    obtain ⟨e1, e2⟩ := flatMap_hex_getD K i hi
    have hK256 : K.getD i 0 < 256 := by
      rw [List.getD_eq_getElem _ _ hi]
      exact hbytes _ (List.getElem_mem hi)
    rw [e1, e2, hexCharVal_hexDigit _ (by omega),
      hexCharVal_hexDigit _ (Nat.mod_lt _ (by omega))]
    rw [List.getD_eq_getElem _ _ hi]
    omega

theorem bytesToBits_length (bs : List Nat) : (bytesToBits bs).length = 8 * bs.length := by
  induction bs with
  | nil => rfl
  | cons a t ih =>
    simp only [bytesToBits, List.flatMap_cons, List.length_append, List.length_map,
      List.length_range, List.length_cons] at ih ⊢
    omega

theorem foldl_length_invariant {β : Type} (l : List β) (f : List Nat → β → List Nat)
    (init : List Nat) (h : ∀ acc b, b ∈ l → (f acc b).length = acc.length) :
    (l.foldl f init).length = init.length := by
  refine List.foldlRecOn (motive := fun (acc : List Nat) => acc.length = init.length)
    l f init rfl ?_
  intro acc hacc b hb
  rw [h acc b hb, hacc]

theorem rsEncode_length (data : List Nat) (nsym : Nat) :
    (rsEncode data nsym).length = data.length + nsym := by
  unfold rsEncode
  dsimp only
  rw [List.length_append, List.length_drop, foldl_length_invariant]
  · simp
  · intro acc b _
    dsimp only
    split
    · rw [foldl_length_invariant]
      intro acc2 j _
      exact List.length_set _ _ _
    · rfl

theorem interleaveBits_length (bits : List Nat) (depth : Nat) :
    (interleaveBits bits depth).length = bits.length := by
  unfold interleaveBits
  split
  · rfl
  · rename_i h
    simp only [List.length_take, List.length_map, List.length_range]
    have h1 := Nat.div_add_mod (bits.length + depth - 1) depth
    have h2 : (bits.length + depth - 1) % depth < depth := Nat.mod_lt _ (by omega)
    apply Nat.min_eq_left
    generalize hq : (bits.length + depth - 1) / depth = q at h1 ⊢
    generalize hr : (bits.length + depth - 1) % depth = r at h1 h2
    generalize hP : depth * q = P at h1 ⊢
    omega

/-- C6: for every 16-byte key `K` (with byte values, passed through the
canonical UUID string `bytesToUuid K`), `buildBitstream` is exactly 464
bits: the 64-bit sync preamble (the MSB-first bits of bytes
`AD 52 E6 63 9A 72 B4 CB`), then the 16-bit big-endian value 16, then the
384 bits of the depth-8 interleaved RS(48,16) codeword of `K`. -/
theorem buildBitstream_frame (K : List Nat) (hlen : K.length = 16)
    (hbytes : ∀ b ∈ K, b < 256) :
    buildBitstream (bytesToUuid K) =
      SYNC_PATTERN ++ numberToBits 16 16 ++
        interleaveBits (bytesToBits (rsEncode K PARITY_BYTES)) INTERLEAVE_DEPTH ∧
    (buildBitstream (bytesToUuid K)).length = 464 ∧
    SYNC_PATTERN = bytesToBits [173, 82, 230, 99, 154, 114, 180, 203] ∧
    numberToBits 16 16 = [0, 0, 0, 0, 0, 0, 0, 0, 0, 0, 0, 1, 0, 0, 0, 0] := by
  have hrt := uuid_roundtrip K hlen hbytes
  have hfirst : buildBitstream (bytesToUuid K) =
      SYNC_PATTERN ++ numberToBits 16 16 ++
        interleaveBits (bytesToBits (rsEncode K PARITY_BYTES)) INTERLEAVE_DEPTH := by
    unfold buildBitstream
    dsimp only
    rw [hrt, hlen]
  refine ⟨hfirst, ?_, by decide, by decide⟩
  rw [hfirst]
  simp only [List.length_append, interleaveBits_length, bytesToBits_length, rsEncode_length,
    hlen]
  rfl

theorem buildBitstream_frame_witness :
    (List.range 16).length = 16 ∧ (∀ b ∈ List.range 16, b < 256) ∧
    (buildBitstream (bytesToUuid (List.range 16))).length = 464 :=
  ⟨by decide, by decide,
    (buildBitstream_frame (List.range 16) (by decide) (by decide)).2.1⟩


/-! ## Detection facade (C5) -/

theorem decodeBitstream_ok_shape (sha256 : List Nat → String) (bits : List Nat)
    (dec : DecodedPayload) (h : decodeBitstream sha256 bits = Except.ok dec)
    (hs : dec.success = true) :
    ∃ kb, dec.signatureId = some (bytesToUuid kb) ∧ dec.payloadHash = some (sha256 kb) := by
  unfold decodeBitstream at h
  dsimp only at h
  simp only [Bind.bind, Except.bind, pure, Except.pure] at h
  split at h
  · rw [Except.ok.injEq] at h
    rw [← h] at hs
    simp at hs
  · split at h
    · exact absurd h (by simp)
    · split at h
      · rw [Except.ok.injEq] at h
        rw [← h] at hs
        simp at hs
      · split at h
        · rw [Except.ok.injEq] at h
          rw [← h]
          exact ⟨_, rfl, rfl⟩
        · rw [Except.ok.injEq] at h
          rw [← h] at hs
          simp at hs

theorem bytesToUuid_ne_empty (kb : List Nat) : bytesToUuid kb ≠ "" := by
  unfold bytesToUuid
  intro hempty
  have hdata := congrArg String.data hempty
  simp at hdata

/-- C5 (amended): whenever `detect` succeeds, the decoded frame `dec`
satisfies: `detected = true` iff the decode reported `success` AND a
signature id string was produced AND the caller lookup on that id is
non-null; and in the LookupMiss case (`success`, id produced, lookup
null) `detected = false` while `payloadHash` carries the SHA-256 digest
of the recovered key bytes.  The spec overstates the id: a stream that
truncates inside the codeword can decode with `success = true` and an
EMPTY key (all-zero partial codeword, zero syndromes), whose id
`bytesToUuid []` is no 16-byte key UUID (see the counterexample). -/
theorem detect_spec (P : Type) (extracted : ExtractedModel) (lookupFn : String → Option P)
    (sha256 : List Nat → String) (res : DetectResult P)
    (h : detect P extracted lookupFn sha256 = Except.ok res) :
    ∃ dec, decodeBitstream sha256 (applySoftMajorityVoting extracted.correlations) =
        Except.ok dec ∧
      (res.detected = true ↔ dec.success = true ∧
        ∃ s, dec.signatureId = some s ∧ (lookupFn s).isSome = true) ∧
      (dec.success = true → ∀ s, dec.signatureId = some s → lookupFn s = none →
        res.detected = false ∧ res.payloadHash = dec.payloadHash ∧
        ∃ kb, dec.signatureId = some (bytesToUuid kb) ∧
          dec.payloadHash = some (sha256 kb)) := by
  rcases hdec : decodeBitstream sha256 (applySoftMajorityVoting extracted.correlations)
    with e | dec
  · unfold detect at h
    dsimp only at h
    rw [hdec] at h
    simp [Bind.bind, Except.bind] at h
  · refine ⟨dec, rfl, ?_⟩
    unfold detect at h
    dsimp only at h
    rw [hdec] at h
    simp only [Bind.bind, Except.bind, pure, Except.pure] at h
    split at h
    · rename_i hcond
      rw [Except.ok.injEq] at h
      have hshape := decodeBitstream_ok_shape sha256 _ dec hdec
      constructor
      · rw [← h]
        simp only [Bool.false_eq_true, false_iff]
        rintro ⟨hsucc, s, hsid, _⟩
        obtain ⟨kb, hkb1, _⟩ := hshape hsucc
        rcases hcond with hc | hc | hc
        · rw [hsucc] at hc
          cases hc
        · rw [hkb1] at hc
          cases hc
        · rw [hkb1] at hc
          rw [Option.some.injEq] at hc
          exact bytesToUuid_ne_empty kb hc
      · intro hsucc s hsid hnone
        obtain ⟨kb, hkb1, hkb2⟩ := hshape hsucc
        rw [← h]
        exact ⟨rfl, rfl, kb, hkb1, hkb2⟩
    · rename_i hcond
      rw [Except.ok.injEq] at h
      push_neg at hcond
      obtain ⟨hsucc, hsidne, hsidemp⟩ := hcond
      have hsuccT : dec.success = true := by
        cases hsb : dec.success
        · exact absurd hsb hsucc
        · rfl
      obtain ⟨s0, hs0⟩ := Option.ne_none_iff_exists'.mp hsidne
      have hgetD : dec.signatureId.getD "" = s0 := by rw [hs0]; rfl
      have hshape := decodeBitstream_ok_shape sha256 _ dec hdec hsuccT
      constructor
      · rw [← h]
        simp only [hgetD]
        constructor
        · intro hdet
          exact ⟨hsuccT, s0, hs0, hdet⟩
        · rintro ⟨_, s, hsid, hsome⟩
          rw [hs0] at hsid
          rw [Option.some.injEq] at hsid
          rw [hsid]
          exact hsome
      · intro _ s hsid hnone
        rw [hs0] at hsid
        rw [Option.some.injEq] at hsid
        rw [← h]
        refine ⟨?_, rfl, hshape⟩
        simp only [hgetD, hsid, hnone, Option.isSome_none]

theorem bytesToUuid_length16 (kb : List Nat) (hlen : kb.length = 16) :
    (bytesToUuid kb).length = 36 := by
  have hcs : (kb.flatMap byteHexChars).length = 32 := by rw [flatMap_hex_length, hlen]
  unfold bytesToUuid
  dsimp only
  simp [String.length, hcs]

unseal Rat.add Rat.mul Rat.sub Rat.inv in
/-- C5 counterexample to the literal claim "recovered a 16-byte key":
an 88-sample correlation vector that syncs at offset 0, reads the length
field 16, and then truncates after a single all-zero codeword byte.
`rsDecode [0] 32` sees all-zero syndromes, so it reports
`corrected = true` with **empty** data; the empty key passes the
`payloadLength === 16` gate (the gate tests the length field, not the
recovered bytes), so the frame decodes with `success = true` and key
`[]`; lookup hits, so `detect` returns `detected = true`, yet the
signature id `"----"` is not `bytesToUuid` of any 16-byte key. -/
theorem detect_cex :
    detect Unit ⟨corrEx88, 0, 0, 0⟩ (fun _ => some ()) (fun _ => "h") =
      Except.ok ⟨true, 45, some (), some "h", ⟨0, 0, 0, 0⟩⟩ ∧
    decodeBitstream (fun _ => "h") (applySoftMajorityVoting corrEx88) =
      Except.ok ⟨some "----", some "h", true, 0⟩ ∧
    rsDecode [0] 32 = Except.ok ⟨[], true, 0⟩ ∧
    (∀ kb : List Nat, kb.length = 16 → bytesToUuid kb ≠ "----") := by
  refine ⟨by decide, by decide, by decide, ?_⟩
  intro kb hl hcontra
  have hlen36 := bytesToUuid_length16 kb hl
  rw [hcontra] at hlen36
  exact absurd hlen36 (by decide)

unseal Rat.add Rat.mul Rat.sub Rat.inv in
theorem detect_spec_witness :
    detect Unit ⟨corrEx88, 0, 0, 0⟩ (fun _ => some ()) (fun _ => "h") =
      Except.ok ⟨true, 45, some (), some "h", ⟨0, 0, 0, 0⟩⟩ ∧
    ∃ dec, decodeBitstream (fun _ => "h") (applySoftMajorityVoting corrEx88) =
        Except.ok dec ∧
      (true = true ↔ dec.success = true ∧
        ∃ s, dec.signatureId = some s ∧ (some ()).isSome = true) ∧
      (dec.success = true → ∀ s, dec.signatureId = some s →
        (some () : Option Unit) = none →
        true = false ∧ (some "h" : Option String) = dec.payloadHash ∧
        ∃ kb, dec.signatureId = some (bytesToUuid kb) ∧
          dec.payloadHash = some "h") := by
  have hd : detect Unit ⟨corrEx88, 0, 0, 0⟩ (fun _ => some ()) (fun _ => "h") =
      Except.ok ⟨true, 45, some (), some "h", ⟨0, 0, 0, 0⟩⟩ := by decide
  exact ⟨hd, detect_spec Unit ⟨corrEx88, 0, 0, 0⟩ (fun _ => some ()) (fun _ => "h")
    ⟨true, 45, some (), some "h", ⟨0, 0, 0, 0⟩⟩ hd⟩


/-! ## Embedder (C4, C8) -/

/-- C4: two runs of the TypeScript `embedWatermark` wrapper that differ
only in the `embedStrength` option are syntactically the same call: the
wrapper never reads that option (the native embedder hard-codes its 0.007
gain), so the outputs are identical — definitionally so (`rfl`). -/
theorem embedStrength_independent {α : Type} [LinearOrderedField α] (ops : EmbedOps α)
    (wav : WavData α) (bitstream : List Nat) (options : EmbedOptionsTS α) (s1 s2 : Option α) :
    embedWatermark ops wav bitstream { options with embedStrength := s1 } =
    embedWatermark ops wav bitstream { options with embedStrength := s2 } := rfl

theorem EmbedWatermark_strength_independent {α : Type} [LinearOrderedField α]
    (ops : EmbedOps α) (wav : WavData α) (bitstream : List Nat)
    (sampleRate channels blockSize hopSize : Nat) (secret : List Nat)
    (e1 e2 r1 r2 : α) (removeBits : List Nat) :
    EmbedWatermark ops wav bitstream sampleRate channels blockSize hopSize secret e1 r1 removeBits =
    EmbedWatermark ops wav bitstream sampleRate channels blockSize hopSize secret e2 r2 removeBits := rfl

theorem addPN_length {α : Type} [LinearOrderedField α] (ch : List α)
    (blockStart n : Nat) (delta : Nat → α) :
    (addPN ch blockStart n delta).length = ch.length := by
  unfold addPN
  induction n with
  | zero => rfl
  | succ k ih =>
    rw [List.range_succ, List.foldl_append]
    simp only [List.foldl_cons, List.foldl_nil, List.length_set]
    exact ih

theorem addPN_getD_ge {α : Type} [LinearOrderedField α] (ch : List α)
    (blockStart n : Nat) (delta : Nat → α) (j : Nat) (hj : blockStart + n ≤ j) :
    (addPN ch blockStart n delta).getD j 0 = ch.getD j 0 := by
  unfold addPN
  induction n with
  | zero => rfl
  | succ k ih =>
    rw [List.range_succ, List.foldl_append]
    simp only [List.foldl_cons, List.foldl_nil]
    have hset : ∀ (l : List α) (a : α), (l.set (blockStart + k) a).getD j 0 = l.getD j 0 := by
      intro l a
      simp [List.getD, List.getElem?_set_ne (show blockStart + k ≠ j by omega)]
    rw [hset]
    exact ih (by omega)

theorem embedBlocks_untouched {α : Type} [LinearOrderedField α] (ops : EmbedOps α)
    (left0 right0 : List α) (bitstream removeBits : List Nat)
    (pnSequences : List (List α)) (samplesPerBit nBlocks : Nat) :
    (embedBlocks ops left0 right0 bitstream removeBits pnSequences samplesPerBit nBlocks).1.length
        = left0.length ∧
    (embedBlocks ops left0 right0 bitstream removeBits pnSequences samplesPerBit nBlocks).2.length
        = right0.length ∧
    ∀ j, nBlocks * samplesPerBit ≤ j →
      (embedBlocks ops left0 right0 bitstream removeBits pnSequences samplesPerBit nBlocks).1.getD j 0
          = left0.getD j 0 ∧
      (embedBlocks ops left0 right0 bitstream removeBits pnSequences samplesPerBit nBlocks).2.getD j 0
          = right0.getD j 0 := by
  unfold embedBlocks
  refine List.foldlRecOn (motive := fun (lr : List α × List α) => lr.1.length = left0.length ∧
    lr.2.length = right0.length ∧ ∀ j, nBlocks * samplesPerBit ≤ j →
      lr.1.getD j 0 = left0.getD j 0 ∧ lr.2.getD j 0 = right0.getD j 0)
    _ _ _ ⟨rfl, rfl, fun j _ => ⟨rfl, rfl⟩⟩ ?_
  intro lr hlr b hb
  obtain ⟨h1, h2, h3⟩ := hlr
  rw [List.mem_range] at hb
  have hble : b * samplesPerBit + samplesPerBit ≤ nBlocks * samplesPerBit := by
    have hsucc : b * samplesPerBit + samplesPerBit = (b + 1) * samplesPerBit :=
      (Nat.succ_mul b samplesPerBit).symm
    rw [hsucc]
    exact Nat.mul_le_mul_right _ hb
  refine ⟨?_, ?_, ?_⟩
  · rw [addPN_length]; exact h1
  · rw [addPN_length]; exact h2
  · intro j hj
    constructor
    · rw [addPN_getD_ge _ _ _ _ j (by omega)]
      exact (h3 j hj).1
    · rw [addPN_getD_ge _ _ _ _ j (by omega)]
      exact (h3 j hj).2

theorem writeChannelSamples_length {α : Type} [LinearOrderedField α]
    (il cd : List α) (ch c : Nat) : (writeChannelSamples il cd ch c).length = il.length := by
  simp [writeChannelSamples]

theorem writeChannelSamples_getD {α : Type} [LinearOrderedField α]
    (il cd : List α) (ch c : Nat) {j : Nat} (hj : j < il.length) :
    (writeChannelSamples il cd ch c).getD j 0 =
      if j % ch = c ∧ j / ch < cd.length then cd.getD (j / ch) 0 else il.getD j 0 := by
  unfold writeChannelSamples
  exact getD_map_range _ _ hj

theorem getChannelSamples_getD {α : Type} [LinearOrderedField α]
    (s : List α) (ch c : Nat) {i : Nat} (hi : i < s.length / ch) :
    (getChannelSamples s ch c).getD i 0 = s.getD (i * ch + c) 0 := by
  unfold getChannelSamples
  exact getD_map_range _ _ hi

/-- C8: on a format-matching input (1 or 2 channels, sample count a
multiple of the channel count), `EmbedWatermark` succeeds and preserves
the sample rate, channel count and total sample count, and every sample
whose per-channel index lies at or beyond
`floor(n_ch / samplesPerBit) * samplesPerBit` (`samplesPerBit =
hopSize * 4`) is written back unchanged. -/
theorem EmbedWatermark_frame_effect {α : Type} [LinearOrderedField α] (ops : EmbedOps α)
    (wav : WavData α) (bitstream : List Nat)
    (sampleRate channels blockSize hopSize : Nat) (secret : List Nat)
    (embedStrength rotationSeconds : α) (removeBits : List Nat)
    (hsr : wav.sampleRate = sampleRate) (hch : wav.channels = channels)
    (hch12 : channels = 1 ∨ channels = 2)
    (hdvd : channels ∣ wav.samples.length)
    (hhop : 0 < hopSize) (hbs : 0 < bitstream.length) :
    ∃ out, EmbedWatermark ops wav bitstream sampleRate channels blockSize hopSize secret
        embedStrength rotationSeconds removeBits = Except.ok out ∧
      out.sampleRate = wav.sampleRate ∧ out.channels = wav.channels ∧
      out.samples.length = wav.samples.length ∧
      ∀ j, j < wav.samples.length →
        wav.samples.length / channels / (hopSize * 4) * (hopSize * 4) ≤ j / channels →
        out.samples.getD j 0 = wav.samples.getD j 0 := by
  have hcond : ¬(wav.sampleRate ≠ sampleRate ∨ wav.channels ≠ channels) := by
    push_neg
    exact ⟨hsr, hch⟩
  unfold EmbedWatermark
  rw [if_neg hcond]
  dsimp only
  refine ⟨_, rfl, rfl, rfl, ?_, ?_⟩
  · by_cases h2 : 1 < channels
    · rw [if_pos h2, writeChannelSamples_length, writeChannelSamples_length,
        List.length_replicate]
    · rw [if_neg h2, writeChannelSamples_length, List.length_replicate]
  · intro j hj hT
    rcases hch12 with hc | hc
    · subst hc
      simp only [lt_self_iff_false, if_false]
      obtain ⟨hL1, hL2, hU⟩ := embedBlocks_untouched ops
        (getChannelSamples wav.samples 1 0) (getChannelSamples wav.samples 1 0)
        bitstream removeBits
        (List.map (fun pos => pnSequence ops
          (hashSecret secret ^^^ pos * 11400714819323198485 % UINT64) (hopSize * 4))
          (List.range bitstream.length))
        (hopSize * 4) ((getChannelSamples wav.samples 1 0).length / (hopSize * 4))
      have hglen : (getChannelSamples wav.samples 1 0).length = wav.samples.length := by
        simp [getChannelSamples]
      have hb : (getChannelSamples wav.samples 1 0).length / (hopSize * 4) * (hopSize * 4) ≤ j := by
        rw [hglen]
        simpa using hT
      rw [writeChannelSamples_getD _ _ _ _ (by simpa using hj)]
      rw [if_pos ⟨Nat.mod_one j, by rw [Nat.div_one, hL1, hglen]; exact hj⟩]
      rw [Nat.div_one, (hU j hb).1]
      rw [getChannelSamples_getD _ _ _ (by simpa using hj)]
      simp
    · subst hc
      simp only [show (1:Nat) < 2 from by omega, if_true]
      obtain ⟨hL1, hL2, hU⟩ := embedBlocks_untouched ops
        (getChannelSamples wav.samples 2 0) (getChannelSamples wav.samples 2 1)
        bitstream removeBits
        (List.map (fun pos => pnSequence ops
          (hashSecret secret ^^^ pos * 11400714819323198485 % UINT64) (hopSize * 4))
          (List.range bitstream.length))
        (hopSize * 4) ((getChannelSamples wav.samples 2 0).length / (hopSize * 4))
      have hglen : (getChannelSamples wav.samples 2 0).length = wav.samples.length / 2 := by
        simp [getChannelSamples]
      have hb : (getChannelSamples wav.samples 2 0).length / (hopSize * 4) * (hopSize * 4) ≤ j / 2 := by
        rw [hglen]
        exact hT
      have hj2 : j / 2 < wav.samples.length / 2 := Nat.div_lt_div_of_lt_of_dvd hdvd hj
      rw [writeChannelSamples_getD _ _ _ _
        (by rw [writeChannelSamples_length, List.length_replicate]; exact hj)]
      rcases Nat.mod_two_eq_zero_or_one j with hm | hm
      · rw [if_neg (by rintro ⟨h1, _⟩; omega)]
        rw [writeChannelSamples_getD _ _ _ _ (by simpa using hj)]
        rw [if_pos ⟨hm, by rw [hL1, hglen]; exact hj2⟩]
        rw [(hU (j / 2) hb).1]
        rw [getChannelSamples_getD _ _ _ (by exact hj2)]
        have hidx : j / 2 * 2 + 0 = j := by omega
        rw [hidx]
      · rw [if_pos ⟨hm, by rw [hL2]; simpa [getChannelSamples] using hj2⟩]
        rw [(hU (j / 2) hb).2]
        rw [getChannelSamples_getD _ _ _ (by simpa [getChannelSamples] using hj2)]
        have hidx : j / 2 * 2 + 1 = j := by omega
        rw [hidx]

theorem EmbedWatermark_frame_effect_witness :
    (2 ∣ ([(1:ℚ), 2]).length) ∧ (0:Nat) < 1 ∧ (0:Nat) < ([1] : List Nat).length ∧
    ∃ out, EmbedWatermark (⟨fun _ => 0, fun _ => 0, 0⟩ : EmbedOps ℚ)
        ⟨44100, 2, [(1:ℚ), 2]⟩ [1] 44100 2 4096 1 [] 0 0 [] = Except.ok out ∧
      out.sampleRate = 44100 ∧ out.channels = 2 ∧ out.samples.length = 2 ∧
      ∀ j, j < 2 → 2 / 2 / (1 * 4) * (1 * 4) ≤ j / 2 →
        out.samples.getD j 0 = ([(1:ℚ), 2]).getD j 0 :=
  ⟨by decide, by decide, by decide,
    EmbedWatermark_frame_effect ⟨fun _ => 0, fun _ => 0, 0⟩ ⟨44100, 2, [(1:ℚ), 2]⟩ [1]
      44100 2 4096 1 [] 0 0 [] rfl rfl (Or.inr rfl) (by decide) (by decide) (by decide)⟩

end MusMark
